import Mathlib

/-
  Verification development for the B+Tree index core of the repository
  (src/Btree/src/btree.cpp, namespace badgerdb).

  Shallow embedding conventions
  -----------------------------
  * The index file is a heap `pages : List (PageId × PageContent)` mapping page
    ids to page contents.  Pages of the real system are zero-initialised byte
    buffers; a page id that was never written is absent from the heap and every
    read of it yields the all-zero page (`zeroLeaf` / `zeroNonLeaf` / `zeroMeta`
    depending on the cast applied by the calling code).  The buffer manager
    itself (BufMgr, BlobFile) is not part of src/; its read/alloc/unpin
    contract is modelled from the spec (§4.2, §4.4): `readPage` pins and
    returns the page, `allocPage` pins a fresh zeroed page, `unPinPage`
    releases one pin and records the dirty bit.
  * On-page arrays (`keyArray`, `ridArray`, `pageNoArray`) are modelled by
    their live prefixes (length `key_count`, resp. `key_count + 1`).  Reads
    beyond the prefix return the zero value, matching the zero-initialised
    buffers; the C++ `memmove`-shift insertions are modelled by their net
    effect `List.insertIdx` / `List.set` on the live prefix.
  * `int` keys are `Int` restricted to 32-bit two's-complement range; the one
    arithmetic operation performed on a key (`keyValue + 1` in the bootstrap
    branch of `BTreeIndex::insert`) wraps, which `wrap32` makes explicit.
  * The node capacities INTARRAYLEAFSIZE / INTARRAYNONLEAFSIZE are defined in
    btree.h, which is not under src/; per the spec (§4.1) they are
    compile-time constants, so the model takes them as parameters `NL`, `NI`.
  * Recursive C++ functions (`insert`, `combineNonleaf`, `setPageIdForScan`)
    descend or ascend through heap pointers; the embedding gives each a fuel
    parameter, with `Res.fuelOut` for exhaustion.
  * Exceptions become `Res.err`; a thrown error carries the state at the
    throw site, so pin leaks on error paths are observable.
-/

namespace BT

abbrev PageId := Nat

/-- RecordId from the framework: (page_number, slot_number); (0,0) is the
sentinel "absent" RID. -/
structure RecordId where
  page_number : Nat
  slot_number : Nat
deriving DecidableEq, Repr

def ridZero : RecordId := ⟨0, 0⟩

/-- Scan operators, as in the framework enum. Only GT/GTE are legal low
operators and LT/LTE legal high operators. -/
inductive Operator where
  | LT | LTE | GTE | GT
deriving DecidableEq, Repr

/-- The typed errors thrown by the core (§7 of the spec). -/
inductive BTError where
  | BadIndexInfo
  | BadOpcodes
  | BadScanrange
  | NoSuchKeyFound
  | ScanNotInitialized
  | IndexScanCompleted
deriving DecidableEq, Repr

/-- Leaf node page (struct LeafNodeInt): key/RID arrays are modelled by their
live prefixes of length `key_count`. -/
structure LeafNodeInt where
  keyArray : List Int
  ridArray : List RecordId
  parent : PageId
  rightSibPageNo : PageId
deriving DecidableEq, Repr

/-- key_count of a leaf is the length of the live key prefix. -/
def LeafNodeInt.key_count (l : LeafNodeInt) : Nat := l.keyArray.length

/-- Internal node page (struct NonLeafNodeInt): `keyArray` holds `key_count`
keys, `pageNoArray` holds `key_count + 1` children. -/
structure NonLeafNodeInt where
  level : Int
  keyArray : List Int
  pageNoArray : List PageId
  parent : PageId
deriving DecidableEq, Repr

def NonLeafNodeInt.key_count (n : NonLeafNodeInt) : Nat := n.keyArray.length

inductive Node where
  | leaf (l : LeafNodeInt)
  | nonleaf (n : NonLeafNodeInt)
deriving DecidableEq, Repr

/-- Meta page (struct IndexMetaInfo). -/
structure IndexMetaInfo where
  relationName : String
  attrByteOffset : Int
  attrType : Nat
  rootPageNo : PageId
deriving DecidableEq, Repr

inductive PageContent where
  | meta (m : IndexMetaInfo)
  | node (n : Node)
deriving DecidableEq, Repr

/-- Pin / unpin / page-write trace events (newest first). The dirty flag of
`unpin` is the third argument of `BufMgr::unPinPage` at the call site. -/
inductive Event where
  | pin (p : PageId)
  | unpin (p : PageId) (dirty : Bool)
  | write (p : PageId)
deriving DecidableEq, Repr

/-- Full state of a `BTreeIndex` instance plus its index file and the buffer
manager's pin bookkeeping. -/
structure BTState where
  pages : List (PageId × PageContent)
  nextPageId : PageId
  headerPageNum : PageId
  rootPageNum : PageId
  scanExecuting : Bool
  nextEntry : Nat
  currentPageNum : PageId
  lowValInt : Int
  highValInt : Int
  lowOp : Operator
  highOp : Operator
  pins : Multiset PageId
  events : List Event
deriving DecidableEq

/-- Result of running an operation: normal return, thrown typed error (with
the state at the throw), or fuel exhaustion of the embedding. -/
inductive Res (α : Type) where
  | ok (a : α) (s : BTState)
  | err (e : BTError) (s : BTState)
  | fuelOut
deriving DecidableEq

def M (α : Type) := BTState → Res α

def M.pure {α : Type} (a : α) : M α := fun s => .ok a s

def M.bind {α β : Type} (x : M α) (f : α → M β) : M β := fun s =>
  match x s with
  | .ok a s' => f a s'
  | .err e s' => .err e s'
  | .fuelOut => .fuelOut

instance : Monad M where
  pure := M.pure
  bind := M.bind

def getS : M BTState := fun s => .ok s s

def modifyS (f : BTState → BTState) : M Unit := fun s => .ok () (f s)

def throwE {α : Type} (e : BTError) : M α := fun s => .err e s

/-- Association-list lookup for the page heap. -/
def heapGet : List (PageId × PageContent) → PageId → Option PageContent
  | [], _ => none
  | (q, c) :: t, p => if q = p then some c else heapGet t p

/-- Association-list update (replace first binding or prepend). -/
def heapSet : List (PageId × PageContent) → PageId → PageContent → List (PageId × PageContent)
  | [], p, c => [(p, c)]
  | (q, c') :: t, p, c => if q = p then (q, c) :: t else (q, c') :: heapSet t p c

/-- `bufMgr->readPage`: pins the page and returns its contents (none = the
all-zero page of a never-written id; modelled from the spec §4.2). -/
def readPage (pid : PageId) : M (Option PageContent) := fun s =>
  .ok (heapGet s.pages pid)
    { s with pins := pid ::ₘ s.pins, events := .pin pid :: s.events }

/-- `bufMgr->allocPage`: returns a fresh page id, pinned; the fresh page is
all-zero (absent from the heap until first written). -/
def allocPage : M PageId := fun s =>
  .ok s.nextPageId
    { s with nextPageId := s.nextPageId + 1,
             pins := s.nextPageId ::ₘ s.pins,
             events := .pin s.nextPageId :: s.events }

/-- `bufMgr->unPinPage(file, pid, dirty)`: releases one pin and records the
dirty flag passed at the call site. -/
def unPinPage (pid : PageId) (dirty : Bool) : M Unit := fun s =>
  .ok () { s with pins := s.pins.erase pid, events := .unpin pid dirty :: s.events }

/-- A store through an already-pinned page pointer. -/
def writePage (pid : PageId) (c : PageContent) : M Unit := fun s =>
  .ok () { s with pages := heapSet s.pages pid c, events := .write pid :: s.events }

/-- Dereference of an already-pinned page pointer (no pin taken): used where
the C++ reuses a live `Page*` such as `currentPageData`. -/
def peek (pid : PageId) : M (Option PageContent) := fun s =>
  .ok (heapGet s.pages pid) s

def zeroLeaf : LeafNodeInt := ⟨[], [], 0, 0⟩

def zeroNonLeaf : NonLeafNodeInt := ⟨0, [], [], 0⟩

def zeroMeta : IndexMetaInfo := ⟨"", 0, 0, 0⟩

/-- `(LeafNodeInt *)page` cast; a zero page reads as the all-zero leaf. -/
def asLeaf : Option PageContent → LeafNodeInt
  | some (.node (.leaf l)) => l
  | _ => zeroLeaf

/-- `(NonLeafNodeInt *)page` cast; a zero page reads as the all-zero node. -/
def asNonLeaf : Option PageContent → NonLeafNodeInt
  | some (.node (.nonleaf n)) => n
  | _ => zeroNonLeaf

/-- `(IndexMetaInfo *)page` cast. -/
def asMeta : Option PageContent → IndexMetaInfo
  | some (.meta m) => m
  | _ => zeroMeta

/-- `*((int *)page)` discriminator read by `BTreeIndex::insert`: 1 on a leaf,
0 on an internal node and on the all-zero page.  A meta page would expose the
first bytes of the relation name; it is modelled as the out-of-range value 2
(`insert` then takes neither branch, as the C++ does for any value ∉ {0,1}). -/
def isLeafD : Option PageContent → Int
  | some (.node (.leaf _)) => 1
  | some (.node (.nonleaf _)) => 0
  | some (.meta _) => 2
  | none => 0

/-- `BTreeIndex::isLeaf` (source line 568): `*((int*)page) == 1`. -/
def isLeaf (pg : Option PageContent) : Bool := isLeafD pg = 1

/-- 32-bit two's-complement wrap for `int` arithmetic. -/
def wrap32 (x : Int) : Int := (x + 2147483648) % 4294967296 - 2147483648

/-- The key is a 32-bit `int` value. -/
def In32 (x : Int) : Prop := -2147483648 ≤ x ∧ x < 2147483648

/-- First index of the list satisfying `p` (the common `for` loop pattern of
btree.cpp that scans `keyArray[0..key_count)` and breaks at the first hit). -/
def firstIdxP (p : Int → Bool) : List Int → Option Nat
  | [] => none
  | k :: ks => if p k then some 0 else (firstIdxP p ks).map (· + 1)

/-- `BTreeIndex::findIndexNonLeaf` (lines 607-636): first `i` with
`keyArray[i] > key`, else `key_count`. -/
def findIndexNonLeaf (node : NonLeafNodeInt) (key : Int) : Nat :=
  (firstIdxP (fun k => decide (key < k)) node.keyArray).getD node.key_count

/-- The descent index of `BTreeIndex::insert` (lines 181-202): first `i` with
`keyValue < keyArray[i]`, else `key_count` (same loop shape as
`findIndexNonLeaf`). -/
def insertChildIndex (node : NonLeafNodeInt) (key : Int) : Nat :=
  (firstIdxP (fun k => decide (key < k)) node.keyArray).getD node.key_count

/-- Net effect of the in-leaf insertion loops (lines 211-232 and 293-312):
shift the suffix starting at the first index with `keyValue < keyArray[i]`
right by one and write the new pair there; append if no such index. -/
def leafInsert (node : LeafNodeInt) (key : Int) (rid : RecordId) : LeafNodeInt :=
  let i := (firstIdxP (fun k => decide (key < k)) node.keyArray).getD node.key_count
  { node with keyArray := node.keyArray.insertIdx i key,
              ridArray := node.ridArray.insertIdx i rid }

/-- Net effect of the internal-node insertion loops of `combineNonleaf`
(lines 336-358 and 427-450): insert `key` before the first strictly greater
key, overwrite the child slot there with `c0` and insert `c1` after it. -/
def nonleafInsert (node : NonLeafNodeInt) (key : Int) (c0 c1 : PageId) : NonLeafNodeInt :=
  let i := (firstIdxP (fun k => decide (key < k)) node.keyArray).getD node.key_count
  { node with keyArray := node.keyArray.insertIdx i key,
              pageNoArray := (node.pageNoArray.set i c0).insertIdx (i + 1) c1 }

/-- The low-bound predicate of `setEntryIndexForScan` (lines 681-695). -/
def lowPredB (op : Operator) (lowVal k : Int) : Bool :=
  if op = .GTE then decide (k ≥ lowVal) else decide (k > lowVal)

/-- The termination test shared by `startScan` (lines 554-557) and `scanNext`
(lines 737-740): sentinel RID, key above the bound, or key at an open
bound. -/
def scanStopB (outRid : RecordId) (val highVal : Int) (highOp : Operator) : Bool :=
  (outRid.page_number = 0 && outRid.slot_number = 0)
    || decide (val > highVal) || (decide (val = highVal) && highOp = .LT)

/-- The child-id slots `pageNoArray[0..key_count]` iterated by the
reparenting loops of `combineNonleaf` (lines 453-486). -/
def childList (n : NonLeafNodeInt) : List PageId :=
  (List.range (n.key_count + 1)).map (fun i => n.pageNoArray.getD i 0)

/-- One iteration of a reparenting loop of `combineNonleaf`: pin the child,
store the new parent id through the cast chosen by `level`, unpin dirty. -/
def reparentOne (lvl : Int) (child newPar : PageId) : M Unit := do
  let pg ← readPage child
  if lvl = 1 then
    writePage child (.node (.leaf { asLeaf pg with parent := newPar }))
  else
    writePage child (.node (.nonleaf { asNonLeaf pg with parent := newPar }))
  unPinPage child true

/-- The reparenting loops of `combineNonleaf` (lines 453-469 and 470-486). -/
def reparentAll (lvl : Int) (children : List PageId) (newPar : PageId) : M Unit :=
  match children with
  | [] => pure ()
  | c :: cs => do
      reparentOne lvl c newPar
      reparentAll lvl cs newPar

/-- `BTreeIndex::combineNonleaf` (lines 322-510): merge the single-separator
node `pid1` into `pid2`, splitting `pid2` and recursing into its parent when
it is full.  `NI` is INTARRAYNONLEAFSIZE.  The recursion along parent
pointers is fuelled. -/
def combineNonleaf (NI : Nat) : Nat → PageId → PageId → M Unit
  | 0, _, _ => fun _ => .fuelOut
  | fuel + 1, pid1, pid2 => do
    let pg1 ← readPage pid1
    let node1 := asNonLeaf pg1
    let pg2 ← readPage pid2
    let node2 := asNonLeaf pg2
    if node2.key_count < NI then
      -- lines 333-358: place (node1.key0, node1.child0, node1.child1) in node2
      writePage pid2 (.node (.nonleaf (nonleafInsert node2 (node1.keyArray.getD 0 0)
        (node1.pageNoArray.getD 0 0) (node1.pageNoArray.getD 1 0))))
      -- lines 359-388: repoint node1's two children at pid2.  The two C++
      -- branches on node1->level differ only in the struct cast used for the
      -- store to `parent`.
      let c1 := node1.pageNoArray.getD 0 0
      let c2 := node1.pageNoArray.getD 1 0
      let pgc1 ← readPage c1
      let pgc2 ← readPage c2
      if node1.level = 1 then
        writePage c1 (.node (.leaf { asLeaf pgc1 with parent := pid2 }))
        writePage c2 (.node (.leaf { asLeaf pgc2 with parent := pid2 }))
      else
        writePage c1 (.node (.nonleaf { asNonLeaf pgc1 with parent := pid2 }))
        writePage c2 (.node (.nonleaf { asNonLeaf pgc2 with parent := pid2 }))
      unPinPage c1 true
      unPinPage c2 true
    else
      -- lines 391-450: split node2 around splitIndex, lift the median into a
      -- fresh `newParent`, and route the pending separator into node2/newNode
      let newNodeID ← allocPage
      let newParentID ← allocPage
      let splitIndex := NI / 2
      let newNode0 : NonLeafNodeInt :=
        { level := node2.level, parent := 0,
          keyArray := node2.keyArray.drop (splitIndex + 1),
          pageNoArray := node2.pageNoArray.drop (splitIndex + 1) }
      let newParent0 : NonLeafNodeInt :=
        { level := 0, parent := 0,
          keyArray := [node2.keyArray.getD splitIndex 0],
          pageNoArray := [pid2, newNodeID] }
      let node2t : NonLeafNodeInt :=
        { node2 with keyArray := node2.keyArray.take splitIndex,
                     pageNoArray := node2.pageNoArray.take (splitIndex + 1) }
      let keyValue := node1.keyArray.getD 0 0
      let l0 := node1.pageNoArray.getD 0 0
      let l1 := node1.pageNoArray.getD 1 0
      writePage newParentID (.node (.nonleaf newParent0))
      if keyValue < newNode0.keyArray.getD 0 0 then
        writePage pid2 (.node (.nonleaf (nonleafInsert node2t keyValue l0 l1)))
        writePage newNodeID (.node (.nonleaf newNode0))
      else
        writePage pid2 (.node (.nonleaf node2t))
        writePage newNodeID (.node (.nonleaf (nonleafInsert newNode0 keyValue l0 l1)))
      -- lines 452-486: reparent every child of node2 and newNode (the counts
      -- are re-read through the live pointers after the insertion above)
      let pgA ← peek pid2
      let n2cur := asNonLeaf pgA
      reparentAll n2cur.level (childList n2cur) pid2
      let pgB ← peek newNodeID
      let nNew := asNonLeaf pgB
      reparentAll nNew.level (childList nNew) newNodeID
      -- lines 488-503: hand both halves to a fresh parent; a root split
      -- promotes newParent to root, otherwise recurse into the old parent
      let pgC ← peek pid2
      let n2c := asNonLeaf pgC
      let n2Parent := n2c.parent
      writePage pid2 (.node (.nonleaf { n2c with parent := newParentID }))
      let pgD ← peek newNodeID
      writePage newNodeID (.node (.nonleaf { asNonLeaf pgD with parent := newParentID }))
      if n2Parent = 0 then
        let pgE ← peek newParentID
        writePage newParentID (.node (.nonleaf { asNonLeaf pgE with parent := 0 }))
        let st ← getS
        let pgM ← readPage st.headerPageNum
        modifyS (fun s => { s with rootPageNum := newParentID })
        writePage st.headerPageNum (.meta { asMeta pgM with rootPageNo := newParentID })
        unPinPage st.headerPageNum true
      else
        combineNonleaf NI fuel newParentID n2Parent
      unPinPage newNodeID true
      unPinPage newParentID true
    unPinPage pid1 true
    unPinPage pid2 true

/-- `BTreeIndex::leafSplitInsert` (lines 242-319): split the full leaf `pid`,
insert the new pair into the proper half, and push the separator to the
parent through an auxiliary single-separator internal node. -/
def leafSplitInsert (NL NI : Nat) (fuel : Nat) (keyValue : Int) (pid : PageId)
    (rid : RecordId) : M Unit := do
  let pg ← readPage pid
  let node0 := asLeaf pg
  let middle := NL / 2
  let newPageId ← allocPage
  -- lines 257-267: move slots [middle, NL) to the new leaf and fix the chain
  let newLeaf0 : LeafNodeInt :=
    { keyArray := node0.keyArray.drop middle, ridArray := node0.ridArray.drop middle,
      parent := 0, rightSibPageNo := node0.rightSibPageNo }
  let node1 : LeafNodeInt :=
    { node0 with keyArray := node0.keyArray.take middle,
                 ridArray := node0.ridArray.take middle,
                 rightSibPageNo := newPageId }
  -- lines 269-283: the auxiliary internal node carrying the separator
  let newNonleafID ← allocPage
  let combineNode := node0.parent
  let sep := newLeaf0.keyArray.getD 0 0
  let aux : NonLeafNodeInt :=
    { level := 1, parent := 0, keyArray := [sep], pageNoArray := [pid, newPageId] }
  let node2 := { node1 with parent := newNonleafID }
  let newLeaf1 := { newLeaf0 with parent := newNonleafID }
  writePage newNonleafID (.node (.nonleaf aux))
  -- lines 285-312: insert the new pair into node or newLeaf by comparing
  -- against the separator
  if keyValue < sep then
    writePage pid (.node (.leaf (leafInsert node2 keyValue rid)))
    writePage newPageId (.node (.leaf newLeaf1))
  else
    writePage pid (.node (.leaf node2))
    writePage newPageId (.node (.leaf (leafInsert newLeaf1 keyValue rid)))
  combineNonleaf NI fuel newNonleafID combineNode
  unPinPage pid true
  unPinPage newPageId true
  unPinPage newNonleafID true

/-- `BTreeIndex::insert` (lines 128-240): recursive descent.  The bootstrap
branch (lines 142-177) fires on the empty root: it seeds the separator
`keyValue + 1` (32-bit wrap) and two fresh leaves.  Note that line 239
unpins every page with `dirty = true`, also on the pure-descent path. -/
def insert (NL NI : Nat) : Nat → Int → PageId → RecordId → M Unit
  | 0, _, _, _ => fun _ => .fuelOut
  | fuel + 1, keyValue, pid, rid => do
    let pg ← readPage pid
    if isLeafD pg = 0 then
      let node := asNonLeaf pg
      if node.key_count = 0 then
        let leftId ← allocPage
        let rightId ← allocPage
        writePage leftId (.node (.leaf
          { keyArray := [keyValue], ridArray := [rid], parent := pid,
            rightSibPageNo := rightId }))
        writePage rightId (.node (.leaf
          { keyArray := [], ridArray := [], parent := pid, rightSibPageNo := 0 }))
        writePage pid (.node (.nonleaf
          { node with keyArray := [wrap32 (keyValue + 1)],
                      pageNoArray := [leftId, rightId], level := 1 }))
        unPinPage leftId true
        unPinPage rightId true
      else
        insert NL NI fuel keyValue (node.pageNoArray.getD (insertChildIndex node keyValue) 0) rid
    else if isLeafD pg = 1 then
      let node := asLeaf pg
      if node.key_count < NL then
        writePage pid (.node (.leaf (leafInsert node keyValue rid)))
      else
        leafSplitInsert NL NI fuel keyValue pid rid
    else
      pure ()
    unPinPage pid true

/-- `BTreeIndex::insertEntry` (lines 123-126): insert starting at the root. -/
def insertEntry (NL NI : Nat) (fuel : Nat) (key : Int) (rid : RecordId) : M Unit := do
  let s ← getS
  insert NL NI fuel key s.rootPageNum rid

/-- `BTreeIndex::endScan` (lines 751-757). -/
def endScan : M Unit := do
  let s ← getS
  if s.scanExecuting = false then
    throwE .ScanNotInitialized
  modifyS (fun s' => { s' with scanExecuting := false })
  unPinPage s.currentPageNum false

/-- `BTreeIndex::setPageIdForScan` (lines 577-586): descend from
`currentPageNum` to the leaf chosen by `lowValInt`, holding only the current
node pinned. -/
def setPageIdForScan : Nat → M Unit
  | 0 => fun _ => .fuelOut
  | fuel + 1 => do
    let s ← getS
    let pg ← readPage s.currentPageNum
    if isLeaf pg then
      pure ()
    else
      let node := asNonLeaf pg
      unPinPage s.currentPageNum false
      modifyS (fun s' =>
        { s' with currentPageNum := node.pageNoArray.getD (findIndexNonLeaf node s.lowValInt) 0 })
      setPageIdForScan fuel

/-- `BTreeIndex::moveToNextPage` (lines 715-721): release the current leaf
(clean), hop to `node->rightSibPageNo`, pin it and reset the cursor. -/
def moveToNextPage (node : LeafNodeInt) : M Unit := do
  let s ← getS
  unPinPage s.currentPageNum false
  let _ ← readPage node.rightSibPageNo
  modifyS (fun s' => { s' with currentPageNum := node.rightSibPageNo, nextEntry := 0 })

/-- `BTreeIndex::setNextEntry` (lines 592-601). -/
def setNextEntry : M Unit := do
  modifyS (fun s => { s with nextEntry := s.nextEntry + 1 })
  let s ← getS
  let pg ← peek s.currentPageNum
  let node := asLeaf pg
  if node.key_count ≤ s.nextEntry ∨ (node.ridArray.getD s.nextEntry ridZero).page_number = 0 then
    moveToNextPage node
  else
    pure ()

/-- `BTreeIndex::setEntryIndexForScan` (lines 673-709): first slot of the
current leaf satisfying the low predicate; if none, a single hop to the right
sibling with the cursor reset to slot 0. -/
def setEntryIndexForScan : M Unit := do
  let s ← getS
  let pg ← peek s.currentPageNum
  let node := asLeaf pg
  match firstIdxP (lowPredB s.lowOp s.lowValInt) node.keyArray with
  | some i => modifyS (fun s' => { s' with nextEntry := i })
  | none => moveToNextPage node

/-- The tail of `BTreeIndex::startScan` (lines 550-561): locate the first
candidate slot and fail with NoSuchKeyFound when it is not in range.  All
bounds are read back from the cursor state, as the C++ reads its members. -/
def startScanTail (fuel : Nat) : M Unit := do
  setPageIdForScan fuel
  setEntryIndexForScan
  let s2 ← getS
  let pg ← peek s2.currentPageNum
  let node := asLeaf pg
  let outRid := node.ridArray.getD s2.nextEntry ridZero
  if scanStopB outRid (node.keyArray.getD s2.nextEntry 0) s2.highValInt s2.highOp then
    endScan
    throwE .NoSuchKeyFound

/-- `BTreeIndex::startScan` (lines 526-562). -/
def startScan (lowVal : Int) (lowOpParm : Operator) (highVal : Int)
    (highOpParm : Operator) (fuel : Nat) : M Unit := do
  if lowOpParm ≠ .GT ∧ lowOpParm ≠ .GTE then
    throwE .BadOpcodes
  if highOpParm ≠ .LT ∧ highOpParm ≠ .LTE then
    throwE .BadOpcodes
  modifyS (fun s => { s with lowValInt := lowVal, highValInt := highVal })
  if lowVal > highVal then
    throwE .BadScanrange
  modifyS (fun s => { s with lowOp := lowOpParm, highOp := highOpParm, scanExecuting := true })
  let s ← getS
  let pgM ← readPage s.headerPageNum
  modifyS (fun s' => { s' with currentPageNum := (asMeta pgM).rootPageNo })
  unPinPage s.headerPageNum false
  startScanTail fuel

/-- `BTreeIndex::scanNext` (lines 727-745).  The C++ assigns the caller's
`outRid` reference before the completion check; the model returns the RID on
normal return only, which is what a caller observes as an emitted record. -/
def scanNext : M RecordId := do
  let s ← getS
  if s.scanExecuting = false then
    throwE .ScanNotInitialized
  let pg ← peek s.currentPageNum
  let node := asLeaf pg
  let outRid := node.ridArray.getD s.nextEntry ridZero
  let val := node.keyArray.getD s.nextEntry 0
  if scanStopB outRid val s.highValInt s.highOp then
    throwE .IndexScanCompleted
  setNextEntry
  pure outRid

/-- The state of a brand-new index file before the constructor runs: no pages
written, page ids are handed out from 1 (page 0 is the null sentinel). -/
def emptyState : BTState :=
  { pages := [], nextPageId := 1, headerPageNum := 0, rootPageNum := 0,
    scanExecuting := false, nextEntry := 0, currentPageNum := 0,
    lowValInt := 0, highValInt := 0, lowOp := .LT, highOp := .LT,
    pins := 0, events := [] }

/-- The constructor's relation-streaming loop (lines 89-103): insert every
record of the relation in order. -/
def insertAll (NL NI fuel : Nat) : List (Int × RecordId) → M Unit
  | [] => pure ()
  | (k, r) :: rest => do
      insertEntry NL NI fuel k r
      insertAll NL NI fuel rest

/-- The create branch of the constructor (lines 66-104): fresh meta page and
empty root, then stream the relation through `insertEntry`. -/
def createIndex (NL NI fuel : Nat) (relationName : String) (attrByteOffset : Int)
    (attrType : Nat) (records : List (Int × RecordId)) : M Unit := do
  let headerId ← allocPage
  let rootId ← allocPage
  modifyS (fun s => { s with headerPageNum := headerId, rootPageNum := rootId })
  writePage headerId (.meta
    { relationName := relationName, attrByteOffset := attrByteOffset,
      attrType := attrType, rootPageNo := rootId })
  writePage rootId (.node (.nonleaf { level := 0, keyArray := [], pageNoArray := [], parent := 0 }))
  unPinPage headerId true
  unPinPage rootId true
  insertAll NL NI fuel records

/-- The open branch of the constructor (lines 50-65): validate the meta page
of an existing index file against the caller's parameters.  On mismatch the
C++ throws BadIndexInfo from inside the `try` block, before the meta page is
unpinned. -/
def openIndex (relationName : String) (attrByteOffset : Int) (attrType : Nat) : M Unit := do
  let s ← getS
  let pgM ← readPage s.headerPageNum
  let metaInfo := asMeta pgM
  if relationName ≠ metaInfo.relationName ∨ attrType ≠ metaInfo.attrType ∨
      attrByteOffset ≠ metaInfo.attrByteOffset then
    throwE .BadIndexInfo
  modifyS (fun s' => { s' with rootPageNum := metaInfo.rootPageNo })
  unPinPage s.headerPageNum false

/-- The public operations of a live `BTreeIndex` (§6 of the spec). -/
inductive PublicOp where
  | insertE (key : Int) (rid : RecordId)
  | startScanOp (lowVal : Int) (lowOp : Operator) (highVal : Int) (highOp : Operator)
  | scanNextOp
  | endScanOp
  | openOp (relationName : String) (attrByteOffset : Int) (attrType : Nat)
deriving DecidableEq

def applyOp (NL NI fuel : Nat) : PublicOp → M Unit
  | .insertE k r => insertEntry NL NI fuel k r
  | .startScanOp lo lop hi hop => startScan lo lop hi hop fuel
  | .scanNextOp => do
      let _ ← scanNext
      pure ()
  | .endScanOp => endScan
  | .openOp rel off ty => openIndex rel off ty

/-- The scan driver of the test harness (`intScan`): call `scanNext` until it
throws, collecting the emitted RIDs. -/
def collectScan : Nat → BTState → List RecordId
  | 0, _ => []
  | fuel + 1, s =>
    match scanNext s with
    | .ok r s' => r :: collectScan fuel s'
    | _ => []

/-- State projection of a run result (for building concrete witness states). -/
def resState {α : Type} (r : Res α) (d : BTState) : BTState :=
  match r with
  | .ok _ s => s
  | .err _ s => s
  | .fuelOut => d

/-! ### Run lemmas: symbolic execution of the monadic primitives -/

@[simp] theorem run_bind {α β : Type} (x : M α) (f : α → M β) (s : BTState) :
    (x >>= f) s = match x s with
      | .ok a s' => f a s'
      | .err e s' => .err e s'
      | .fuelOut => .fuelOut := rfl

@[simp] theorem run_pure {α : Type} (a : α) (s : BTState) :
    (Pure.pure a : M α) s = .ok a s := rfl

@[simp] theorem run_getS (s : BTState) : getS s = .ok s s := rfl

@[simp] theorem run_modifyS (f : BTState → BTState) (s : BTState) :
    modifyS f s = .ok () (f s) := rfl

@[simp] theorem run_throwE {α : Type} (e : BTError) (s : BTState) :
    (throwE e : M α) s = .err e s := rfl

@[simp] theorem run_readPage (pid : PageId) (s : BTState) :
    readPage pid s = .ok (heapGet s.pages pid)
      { s with pins := pid ::ₘ s.pins, events := .pin pid :: s.events } := rfl

@[simp] theorem run_allocPage (s : BTState) :
    allocPage s = .ok s.nextPageId
      { s with nextPageId := s.nextPageId + 1,
               pins := s.nextPageId ::ₘ s.pins,
               events := .pin s.nextPageId :: s.events } := rfl

@[simp] theorem run_unPinPage (pid : PageId) (dirty : Bool) (s : BTState) :
    unPinPage pid dirty s =
      .ok () { s with pins := s.pins.erase pid, events := .unpin pid dirty :: s.events } := rfl

@[simp] theorem run_writePage (pid : PageId) (c : PageContent) (s : BTState) :
    writePage pid c s =
      .ok () { s with pages := heapSet s.pages pid c, events := .write pid :: s.events } := rfl

@[simp] theorem run_peek (pid : PageId) (s : BTState) :
    peek pid s = .ok (heapGet s.pages pid) s := rfl

/-! ### Multiset helpers for pin accounting -/

theorem ms_e2 {α : Type} [DecidableEq α] (a b : α) (s : Multiset α) :
    (a ::ₘ b ::ₘ s).erase b = a ::ₘ s := by
  by_cases h : a = b
  · subst h
    rw [Multiset.erase_cons_head]
  · rw [Multiset.erase_cons_tail _ h, Multiset.erase_cons_head]

theorem ms_e3 {α : Type} [DecidableEq α] (a b c : α) (s : Multiset α) :
    (a ::ₘ b ::ₘ c ::ₘ s).erase c = a ::ₘ b ::ₘ s := by
  by_cases h : a = c
  · subst h
    rw [Multiset.erase_cons_head]
    exact Multiset.cons_swap b a s
  · rw [Multiset.erase_cons_tail _ h, ms_e2]

/-! ### Heap lemmas -/

theorem heapGet_heapSet_self (h : List (PageId × PageContent)) (p : PageId) (c : PageContent) :
    heapGet (heapSet h p c) p = some c := by
  induction h with
  | nil => simp [heapGet, heapSet]
  | cons hd t ih =>
    obtain ⟨q, c'⟩ := hd
    by_cases hq : q = p
    · subst hq
      simp [heapGet, heapSet]
    · simp [heapGet, heapSet, hq, ih]

theorem heapGet_heapSet_ne (h : List (PageId × PageContent)) (p q : PageId) (c : PageContent)
    (hne : q ≠ p) : heapGet (heapSet h p c) q = heapGet h q := by
  induction h with
  | nil =>
    simp only [heapSet, heapGet]
    rw [if_neg (Ne.symm hne)]
  | cons hd t ih =>
    obtain ⟨r, c'⟩ := hd
    by_cases hr : r = p
    · subst hr
      simp only [heapSet, if_pos rfl, heapGet]
      rw [if_neg (Ne.symm hne), if_neg (Ne.symm hne)]
    · simp only [heapSet, if_neg hr, heapGet]
      by_cases hq : r = q
      · simp [hq]
      · simp [hq, ih]

@[simp] theorem run_ite {α : Type} (c : Prop) [Decidable c] (x y : M α) (s : BTState) :
    (if c then x else y) s = if c then x s else y s := by
  split <;> rfl

theorem mem_heapSet {h : List (PageId × PageContent)} {p : PageId} {c : PageContent}
    {x : PageId × PageContent} :
    x ∈ heapSet h p c → x = (p, c) ∨ x ∈ h := by
  induction h with
  | nil =>
    intro hx
    simp only [heapSet, List.mem_singleton] at hx
    exact Or.inl hx
  | cons hd t ih =>
    obtain ⟨q, c'⟩ := hd
    intro hx
    by_cases hq : q = p
    · rw [heapSet, if_pos hq] at hx
      rcases List.mem_cons.mp hx with h1 | h1
      · exact Or.inl (by rw [h1, hq])
      · exact Or.inr (List.mem_cons_of_mem _ h1)
    · rw [heapSet, if_neg hq] at hx
      rcases List.mem_cons.mp hx with h1 | h1
      · exact Or.inr (h1 ▸ List.mem_cons_self _ _)
      · rcases ih h1 with h2 | h2
        · exact Or.inl h2
        · exact Or.inr (List.mem_cons_of_mem _ h2)

/-! ### Run characterizations of the scan-side functions -/

theorem endScan_run_inactive {s : BTState} (h : s.scanExecuting = false) :
    endScan s = .err .ScanNotInitialized s := by
  simp [endScan, h]

theorem endScan_run_active {s : BTState} (h : s.scanExecuting = true) :
    endScan s = .ok ()
      { s with scanExecuting := false,
               pins := s.pins.erase s.currentPageNum,
               events := .unpin s.currentPageNum false :: s.events } := by
  simp [endScan, h]

theorem moveToNextPage_run (node : LeafNodeInt) (s : BTState) :
    moveToNextPage node s = .ok ()
      { s with currentPageNum := node.rightSibPageNo,
               nextEntry := 0,
               pins := node.rightSibPageNo ::ₘ s.pins.erase s.currentPageNum,
               events := .pin node.rightSibPageNo :: .unpin s.currentPageNum false :: s.events } := by
  simp [moveToNextPage]

theorem setNextEntry_run (s : BTState) :
    setNextEntry s =
      if (asLeaf (heapGet s.pages s.currentPageNum)).key_count ≤ s.nextEntry + 1 ∨
          ((asLeaf (heapGet s.pages s.currentPageNum)).ridArray.getD (s.nextEntry + 1)
            ridZero).page_number = 0 then
        moveToNextPage (asLeaf (heapGet s.pages s.currentPageNum)) { s with nextEntry := s.nextEntry + 1 }
      else
        .ok () { s with nextEntry := s.nextEntry + 1 } := by
  simp only [setNextEntry, run_bind, run_modifyS, run_getS, run_peek, run_ite, run_pure]

theorem setEntryIndexForScan_run (s : BTState) :
    setEntryIndexForScan s =
      match firstIdxP (lowPredB s.lowOp s.lowValInt)
          (asLeaf (heapGet s.pages s.currentPageNum)).keyArray with
      | some i => .ok () { s with nextEntry := i }
      | none => moveToNextPage (asLeaf (heapGet s.pages s.currentPageNum)) s := by
  simp only [setEntryIndexForScan, run_bind, run_getS, run_peek]
  cases firstIdxP (lowPredB s.lowOp s.lowValInt)
      (asLeaf (heapGet s.pages s.currentPageNum)).keyArray <;> rfl

/-- Every unpin event of a trace segment passes the dirty flag `b`. -/
def unpinsAll (b : Bool) (d : List Event) : Prop :=
  ∀ p b', Event.unpin p b' ∈ d → b' = b

/-- Every unpin event of a trace segment passes `dirty = true`. -/
def unpinsDirty (d : List Event) : Prop := unpinsAll true d

/-- Every unpin event of a trace segment passes `dirty = false`. -/
def unpinsClean (d : List Event) : Prop := unpinsAll false d

theorem unpinsAll_append {b : Bool} {l1 l2 : List Event}
    (h1 : unpinsAll b l1) (h2 : unpinsAll b l2) : unpinsAll b (l1 ++ l2) :=
  fun p b' hm => (List.mem_append.mp hm).elim (h1 p b') (h2 p b')

/-- Every run of `m` only appends events to the trace, and every unpin
appended passes the dirty flag `b`. -/
def EvRun {α : Type} (b : Bool) (m : M α) : Prop :=
  ∀ s, match m s with
    | .ok _ s' => ∃ l, s'.events = l ++ s.events ∧ unpinsAll b l
    | .err _ s' => ∃ l, s'.events = l ++ s.events ∧ unpinsAll b l
    | .fuelOut => True

theorem evRun_read (b : Bool) (p : PageId) : EvRun b (readPage p) := by
  intro s
  exact ⟨[.pin p], rfl, by intro q b' h; simp [Event.unpin.injEq] at h⟩

theorem evRun_peek (b : Bool) (p : PageId) : EvRun b (peek p) := by
  intro s
  exact ⟨[], rfl, by intro q b' h; simp at h⟩

theorem evRun_alloc (b : Bool) : EvRun b allocPage := by
  intro s
  exact ⟨[.pin s.nextPageId], rfl, by intro q b' h; simp [Event.unpin.injEq] at h⟩

theorem evRun_write (b : Bool) (p : PageId) (c : PageContent) : EvRun b (writePage p c) := by
  intro s
  exact ⟨[.write p], rfl, by intro q b' h; simp [Event.unpin.injEq] at h⟩

theorem evRun_unpin (b : Bool) (p : PageId) : EvRun b (unPinPage p b) := by
  intro s
  refine ⟨[.unpin p b], rfl, ?_⟩
  intro q b' h
  simp only [List.mem_singleton, Event.unpin.injEq] at h
  exact h.2

theorem evRun_pure {α : Type} (b : Bool) (a : α) : EvRun b (Pure.pure a : M α) := by
  intro s
  exact ⟨[], rfl, by intro q b' h; simp at h⟩

theorem evRun_getS (b : Bool) : EvRun b getS := by
  intro s
  exact ⟨[], rfl, by intro q b' h; simp at h⟩

theorem evRun_throw {α : Type} (b : Bool) (e : BTError) : EvRun b (throwE e : M α) := by
  intro s
  exact ⟨[], rfl, by intro q b' h; simp at h⟩

theorem evRun_modifyE {b : Bool} (f : BTState → BTState)
    (h : ∀ s, (f s).events = s.events) : EvRun b (modifyS f) := by
  intro s
  exact ⟨[], by rw [List.nil_append, h], by intro q b' hm; simp at hm⟩

theorem evRun_bind {α β : Type} {b : Bool} {x : M α} {f : α → M β}
    (hx : EvRun b x) (hf : ∀ a, EvRun b (f a)) : EvRun b (x >>= f) := by
  intro s
  rw [run_bind]
  have h1 := hx s
  cases hxs : x s with
  | fuelOut => exact trivial
  | err e s1 =>
    rw [hxs] at h1
    exact h1
  | ok a s1 =>
    rw [hxs] at h1
    obtain ⟨l1, he1, hd1⟩ := h1
    have h2 := hf a s1
    dsimp only
    cases hfs : f a s1 with
    | fuelOut => exact trivial
    | ok c s2 =>
      rw [hfs] at h2
      obtain ⟨l2, he2, hd2⟩ := h2
      refine ⟨l2 ++ l1, ?_, unpinsAll_append hd2 hd1⟩
      rw [he2, he1, List.append_assoc]
    | err e s2 =>
      rw [hfs] at h2
      obtain ⟨l2, he2, hd2⟩ := h2
      refine ⟨l2 ++ l1, ?_, unpinsAll_append hd2 hd1⟩
      rw [he2, he1, List.append_assoc]

theorem evRun_ite {α : Type} {b : Bool} {c : Prop} [Decidable c] {x y : M α}
    (hx : EvRun b x) (hy : EvRun b y) : EvRun b (if c then x else y) := by
  by_cases hc : c
  · rw [if_pos hc]; exact hx
  · rw [if_neg hc]; exact hy

theorem evRun_reparentOne (lvl : Int) (child newPar : PageId) :
    EvRun true (reparentOne lvl child newPar) := by
  rw [reparentOne]
  repeat' first
    | exact evRun_read _ _
    | exact evRun_write _ _ _
    | exact evRun_unpin _ _
    | apply evRun_ite
    | apply evRun_bind
    | dsimp only
    | intro a

theorem evRun_reparentAll (lvl : Int) : ∀ (children : List PageId) (newPar : PageId),
    EvRun true (reparentAll lvl children newPar) := by
  intro children
  induction children with
  | nil =>
    intro newPar
    rw [reparentAll]
    exact evRun_pure _ _
  | cons c cs ih =>
    intro newPar
    rw [reparentAll]
    exact evRun_bind (evRun_reparentOne _ _ _) (fun _ => ih _)

theorem evRun_combine (NI : Nat) : ∀ (fuel : Nat) (p1 p2 : PageId),
    EvRun true (combineNonleaf NI fuel p1 p2) := by
  intro fuel
  induction fuel with
  | zero =>
    intro p1 p2 s
    exact trivial
  | succ n ih =>
    intro p1 p2
    rw [combineNonleaf]
    repeat' first
      | exact evRun_read _ _
      | exact evRun_peek _ _
      | exact evRun_alloc _
      | exact evRun_write _ _ _
      | exact evRun_unpin _ _
      | exact evRun_pure _ _
      | exact evRun_getS _
      | exact evRun_modifyE _ (fun s => rfl)
      | exact evRun_reparentAll _ _ _
      | exact ih _ _
      | apply evRun_ite
      | apply evRun_bind
      | dsimp only
      | intro a

theorem evRun_leafSplit (NL NI fuel : Nat) (k : Int) (pid : PageId) (rid : RecordId) :
    EvRun true (leafSplitInsert NL NI fuel k pid rid) := by
  rw [leafSplitInsert]
  repeat' first
    | exact evRun_read _ _
    | exact evRun_alloc _
    | exact evRun_write _ _ _
    | exact evRun_unpin _ _
    | exact evRun_combine _ _ _ _
    | apply evRun_ite
    | apply evRun_bind
    | dsimp only
    | intro a

theorem evRun_insert (NL NI : Nat) : ∀ (fuel : Nat) (k : Int) (pid : PageId) (rid : RecordId),
    EvRun true (insert NL NI fuel k pid rid) := by
  intro fuel
  induction fuel with
  | zero =>
    intro k pid rid s
    exact trivial
  | succ n ih =>
    intro k pid rid
    rw [insert]
    repeat' first
      | exact evRun_read _ _
      | exact evRun_alloc _
      | exact evRun_write _ _ _
      | exact evRun_unpin _ _
      | exact evRun_pure _ _
      | exact evRun_leafSplit _ _ _ _ _ _
      | exact ih _ _ _
      | apply evRun_ite
      | apply evRun_bind
      | dsimp only
      | intro a

theorem evRun_insertEntry (NL NI fuel : Nat) (k : Int) (rid : RecordId) :
    EvRun true (insertEntry NL NI fuel k rid) := by
  rw [insertEntry]
  exact evRun_bind (evRun_getS _) (fun s => evRun_insert NL NI fuel k s.rootPageNum rid)

theorem evRun_endScan : EvRun false endScan := by
  rw [endScan]
  repeat' first
    | exact evRun_getS _
    | exact evRun_throw _ _
    | exact evRun_pure _ _
    | exact evRun_unpin _ _
    | exact evRun_modifyE _ (fun s => rfl)
    | apply evRun_ite
    | apply evRun_bind
    | dsimp only
    | intro a

theorem evRun_moveToNextPage (node : LeafNodeInt) : EvRun false (moveToNextPage node) := by
  rw [moveToNextPage]
  repeat' first
    | exact evRun_getS _
    | exact evRun_read _ _
    | exact evRun_unpin _ _
    | exact evRun_modifyE _ (fun s => rfl)
    | apply evRun_bind
    | dsimp only
    | intro a

theorem evRun_setPageId : ∀ (fuel : Nat), EvRun false (setPageIdForScan fuel) := by
  intro fuel
  induction fuel with
  | zero =>
    intro s
    exact trivial
  | succ n ih =>
    rw [setPageIdForScan]
    repeat' first
      | exact evRun_getS _
      | exact evRun_read _ _
      | exact evRun_unpin _ _
      | exact evRun_pure _ _
      | exact evRun_modifyE _ (fun s => rfl)
      | exact ih
      | apply evRun_ite
      | apply evRun_bind
      | dsimp only
      | intro a

theorem evRun_setNextEntry : EvRun false setNextEntry := by
  rw [setNextEntry]
  repeat' first
    | exact evRun_getS _
    | exact evRun_peek _ _
    | exact evRun_pure _ _
    | exact evRun_moveToNextPage _
    | exact evRun_modifyE _ (fun s => rfl)
    | apply evRun_ite
    | apply evRun_bind
    | dsimp only
    | intro a

theorem evRun_setEntryIndex : EvRun false setEntryIndexForScan := by
  rw [setEntryIndexForScan]
  apply evRun_bind (evRun_getS _)
  intro s
  apply evRun_bind (evRun_peek _ _)
  intro pg
  dsimp only
  cases firstIdxP (lowPredB s.lowOp s.lowValInt) (asLeaf pg).keyArray
  · exact evRun_moveToNextPage _
  · exact evRun_modifyE _ (fun s => rfl)

theorem evRun_startScanTail (fuel : Nat) : EvRun false (startScanTail fuel) := by
  rw [startScanTail]
  repeat' first
    | exact evRun_getS _
    | exact evRun_peek _ _
    | exact evRun_pure _ _
    | exact evRun_throw _ _
    | exact evRun_setPageId _
    | exact evRun_setEntryIndex
    | exact evRun_endScan
    | apply evRun_ite
    | apply evRun_bind
    | dsimp only
    | intro a

theorem evRun_startScan (lo : Int) (lop : Operator) (hi : Int) (hop : Operator) (fuel : Nat) :
    EvRun false (startScan lo lop hi hop fuel) := by
  rw [startScan]
  repeat' first
    | exact evRun_getS _
    | exact evRun_read _ _
    | exact evRun_unpin _ _
    | exact evRun_throw _ _
    | exact evRun_pure _ _
    | exact evRun_startScanTail _
    | exact evRun_modifyE _ (fun s => rfl)
    | apply evRun_ite
    | apply evRun_bind
    | dsimp only
    | intro a

theorem evRun_scanNext : EvRun false scanNext := by
  rw [scanNext]
  repeat' first
    | exact evRun_getS _
    | exact evRun_peek _ _
    | exact evRun_throw _ _
    | exact evRun_pure _ _
    | exact evRun_setNextEntry
    | apply evRun_ite
    | apply evRun_bind
    | dsimp only
    | intro a

theorem evRun_openIndex (rel : String) (off : Int) (ty : Nat) :
    EvRun false (openIndex rel off ty) := by
  rw [openIndex]
  repeat' first
    | exact evRun_getS _
    | exact evRun_read _ _
    | exact evRun_unpin _ _
    | exact evRun_throw _ _
    | exact evRun_pure _ _
    | exact evRun_modifyE _ (fun s => rfl)
    | apply evRun_ite
    | apply evRun_bind
    | dsimp only
    | intro a

@[simp] theorem unpinsDirty_nil : unpinsDirty [] := by
  intro p b hb
  simp at hb

@[simp] theorem unpinsClean_nil : unpinsClean [] := by
  intro p b hb
  simp at hb

@[simp] theorem unpinsDirty_cons_pin (p : PageId) (d : List Event) :
    unpinsDirty (.pin p :: d) ↔ unpinsDirty d := by
  constructor
  · intro h q b hb
    exact h q b (List.mem_cons_of_mem _ hb)
  · intro h q b hb
    rcases List.mem_cons.mp hb with h1 | h1
    · exact absurd h1 (by simp)
    · exact h q b h1

@[simp] theorem unpinsDirty_cons_write (p : PageId) (d : List Event) :
    unpinsDirty (.write p :: d) ↔ unpinsDirty d := by
  constructor
  · intro h q b hb
    exact h q b (List.mem_cons_of_mem _ hb)
  · intro h q b hb
    rcases List.mem_cons.mp hb with h1 | h1
    · exact absurd h1 (by simp)
    · exact h q b h1

@[simp] theorem unpinsDirty_cons_unpin (p : PageId) (b0 : Bool) (d : List Event) :
    unpinsDirty (.unpin p b0 :: d) ↔ b0 = true ∧ unpinsDirty d := by
  constructor
  · intro h
    refine ⟨h p b0 (List.mem_cons_self _ _), fun q b hb => h q b (List.mem_cons_of_mem _ hb)⟩
  · intro h q b hb
    rcases List.mem_cons.mp hb with h1 | h1
    · cases h1
      exact h.1
    · exact h.2 q b h1

@[simp] theorem unpinsClean_cons_pin (p : PageId) (d : List Event) :
    unpinsClean (.pin p :: d) ↔ unpinsClean d := by
  constructor
  · intro h q b hb
    exact h q b (List.mem_cons_of_mem _ hb)
  · intro h q b hb
    rcases List.mem_cons.mp hb with h1 | h1
    · exact absurd h1 (by simp)
    · exact h q b h1

@[simp] theorem unpinsClean_cons_write (p : PageId) (d : List Event) :
    unpinsClean (.write p :: d) ↔ unpinsClean d := by
  constructor
  · intro h q b hb
    exact h q b (List.mem_cons_of_mem _ hb)
  · intro h q b hb
    rcases List.mem_cons.mp hb with h1 | h1
    · exact absurd h1 (by simp)
    · exact h q b h1

@[simp] theorem unpinsClean_cons_unpin (p : PageId) (b0 : Bool) (d : List Event) :
    unpinsClean (.unpin p b0 :: d) ↔ b0 = false ∧ unpinsClean d := by
  constructor
  · intro h
    refine ⟨h p b0 (List.mem_cons_self _ _), fun q b hb => h q b (List.mem_cons_of_mem _ hb)⟩
  · intro h q b hb
    rcases List.mem_cons.mp hb with h1 | h1
    · cases h1
      exact h.1
    · exact h.2 q b h1

@[simp] theorem unpinsDirty_append (d1 d2 : List Event) :
    unpinsDirty (d1 ++ d2) ↔ unpinsDirty d1 ∧ unpinsDirty d2 := by
  constructor
  · intro h
    exact ⟨fun q b hb => h q b (List.mem_append_left _ hb),
           fun q b hb => h q b (List.mem_append_right _ hb)⟩
  · intro h q b hb
    rcases List.mem_append.mp hb with h1 | h1
    · exact h.1 q b h1
    · exact h.2 q b h1

@[simp] theorem unpinsClean_append (d1 d2 : List Event) :
    unpinsClean (d1 ++ d2) ↔ unpinsClean d1 ∧ unpinsClean d2 := by
  constructor
  · intro h
    exact ⟨fun q b hb => h q b (List.mem_append_left _ hb),
           fun q b hb => h q b (List.mem_append_right _ hb)⟩
  · intro h q b hb
    rcases List.mem_append.mp hb with h1 | h1
    · exact h.1 q b h1
    · exact h.2 q b h1

/-- What the scan descent leaves unchanged, and its net pin effect: on
success, exactly the reached leaf (the new `currentPageNum`) is newly
pinned, the heap is untouched, and every unpin on the way down was clean. -/
theorem setPageIdForScan_ok : ∀ (fuel : Nat) (s s' : BTState),
    setPageIdForScan fuel s = .ok () s' →
    s'.pages = s.pages ∧ s'.nextPageId = s.nextPageId ∧
    s'.headerPageNum = s.headerPageNum ∧ s'.rootPageNum = s.rootPageNum ∧
    s'.scanExecuting = s.scanExecuting ∧ s'.nextEntry = s.nextEntry ∧
    s'.lowValInt = s.lowValInt ∧ s'.highValInt = s.highValInt ∧
    s'.lowOp = s.lowOp ∧ s'.highOp = s.highOp ∧
    s'.pins = s'.currentPageNum ::ₘ s.pins ∧
    isLeaf (heapGet s.pages s'.currentPageNum) = true ∧
    ∃ d, s'.events = d ++ s.events ∧ unpinsClean d := by
  intro fuel
  induction fuel with
  | zero =>
    intro s s' h
    simp [setPageIdForScan] at h
  | succ fuel ih =>
    intro s s' h
    rw [setPageIdForScan] at h
    simp only [run_bind, run_getS, run_readPage, run_ite, run_pure, run_unPinPage,
      run_modifyS, Multiset.erase_cons_head] at h
    by_cases hl : isLeaf (heapGet s.pages s.currentPageNum)
    · rw [if_pos hl] at h
      cases h
      refine ⟨rfl, rfl, rfl, rfl, rfl, rfl, rfl, rfl, rfl, rfl, rfl, hl, [.pin s.currentPageNum], rfl, by simp⟩
    · rw [if_neg hl] at h
      obtain ⟨h1, h2, h3, h4, h5, h6, h7, h8, h9, h10, h11, h12, d, hd, hcl⟩ := ih _ _ h
      refine ⟨h1, h2, h3, h4, h5, h6, h7, h8, h9, h10, by simpa using h11, by simpa using h12, ?_⟩
      refine ⟨d ++ [.unpin s.currentPageNum false, .pin s.currentPageNum], ?_, by simp [hcl]⟩
      simpa using hd

/-- The scan descent never throws: it either reaches a leaf or runs out of
fuel (the latter happens on the cyclic zero-page walk of an empty tree). -/
theorem setPageIdForScan_cases : ∀ (fuel : Nat) (s : BTState),
    setPageIdForScan fuel s = .fuelOut ∨ ∃ s', setPageIdForScan fuel s = .ok () s' := by
  intro fuel
  induction fuel with
  | zero =>
    intro s
    exact Or.inl rfl
  | succ fuel ih =>
    intro s
    rw [setPageIdForScan]
    simp only [run_bind, run_getS, run_readPage, run_ite, run_pure, run_unPinPage,
      run_modifyS, Multiset.erase_cons_head]
    by_cases hl : isLeaf (heapGet s.pages s.currentPageNum)
    · rw [if_pos hl]
      exact Or.inr ⟨_, rfl⟩
    · rw [if_neg hl]
      exact ih _

theorem scanNext_run_inactive {s : BTState} (h : s.scanExecuting = false) :
    scanNext s = .err .ScanNotInitialized s := by
  simp [scanNext, h]

theorem scanNext_run_stop {s : BTState} (h : s.scanExecuting = true)
    (hstop : scanStopB
      ((asLeaf (heapGet s.pages s.currentPageNum)).ridArray.getD s.nextEntry ridZero)
      ((asLeaf (heapGet s.pages s.currentPageNum)).keyArray.getD s.nextEntry 0)
      s.highValInt s.highOp = true) :
    scanNext s = .err .IndexScanCompleted s := by
  simp only [scanNext, run_bind, run_getS, run_peek, run_ite, run_throwE, run_pure, h, hstop]
  simp

theorem scanNext_run_emit {s : BTState} (h : s.scanExecuting = true)
    (hstop : scanStopB
      ((asLeaf (heapGet s.pages s.currentPageNum)).ridArray.getD s.nextEntry ridZero)
      ((asLeaf (heapGet s.pages s.currentPageNum)).keyArray.getD s.nextEntry 0)
      s.highValInt s.highOp = false) :
    scanNext s =
      match setNextEntry s with
      | .ok _ s1 => .ok ((asLeaf (heapGet s.pages s.currentPageNum)).ridArray.getD s.nextEntry ridZero) s1
      | .err e s1 => .err e s1
      | .fuelOut => .fuelOut := by
  simp only [scanNext, run_bind, run_getS, run_peek, run_ite, run_throwE, run_pure, h, hstop]
  simp
  cases setNextEntry s <;> rfl

/-! ### startScan path lemmas -/

theorem startScan_badop_low (lowVal highVal : Int) (lop hop : Operator) (fuel : Nat)
    (s : BTState) (h : lop ≠ .GT ∧ lop ≠ .GTE) :
    startScan lowVal lop highVal hop fuel s = .err .BadOpcodes s := by
  rw [startScan]
  simp only [run_bind, run_ite, run_throwE, run_pure]
  rw [if_pos h]

theorem startScan_badop_high (lowVal highVal : Int) (lop hop : Operator) (fuel : Nat)
    (s : BTState) (h1 : ¬(lop ≠ .GT ∧ lop ≠ .GTE)) (h2 : hop ≠ .LT ∧ hop ≠ .LTE) :
    startScan lowVal lop highVal hop fuel s = .err .BadOpcodes s := by
  rw [startScan]
  simp only [run_bind, run_ite, run_throwE, run_pure]
  rw [if_neg h1, if_pos h2]

theorem startScan_badrange (lowVal highVal : Int) (lop hop : Operator) (fuel : Nat)
    (s : BTState) (h1 : ¬(lop ≠ .GT ∧ lop ≠ .GTE)) (h2 : ¬(hop ≠ .LT ∧ hop ≠ .LTE))
    (h3 : lowVal > highVal) :
    startScan lowVal lop highVal hop fuel s =
      .err .BadScanrange { s with lowValInt := lowVal, highValInt := highVal } := by
  rw [startScan]
  simp only [run_bind, run_ite, run_throwE, run_pure, run_modifyS]
  rw [if_neg h1, if_neg h2, if_pos h3]

/-- On valid arguments `startScan` initialises the cursor bounds, marks the
scan active, notes the root from the meta page (pinning and cleanly
releasing it) and runs the descent tail. -/
theorem startScan_main_eq (lowVal highVal : Int) (lop hop : Operator) (fuel : Nat)
    (s : BTState) (h1 : ¬(lop ≠ .GT ∧ lop ≠ .GTE)) (h2 : ¬(hop ≠ .LT ∧ hop ≠ .LTE))
    (h3 : ¬(lowVal > highVal)) :
    startScan lowVal lop highVal hop fuel s = startScanTail fuel
      { s with lowValInt := lowVal, highValInt := highVal, lowOp := lop, highOp := hop,
               scanExecuting := true,
               currentPageNum := (asMeta (heapGet s.pages s.headerPageNum)).rootPageNo,
               events := .unpin s.headerPageNum false :: .pin s.headerPageNum :: s.events } := by
  rw [startScan]
  simp only [run_bind, run_ite, run_throwE, run_pure, run_modifyS, run_getS, run_readPage,
    run_unPinPage, Multiset.erase_cons_head]
  rw [if_neg h1, if_neg h2, if_neg h3]

/-- Outcomes of the startScan tail from an active cursor state: fuel
exhaustion, success with exactly the current leaf pinned, or NoSuchKeyFound
with the scan deactivated and every pin released. -/
theorem startScanTail_spec (fuel : Nat) (s2 : BTState) (hscan : s2.scanExecuting = true) :
    startScanTail fuel s2 = .fuelOut ∨
    (∃ s', startScanTail fuel s2 = .ok () s' ∧
      s'.scanExecuting = true ∧
      s'.pages = s2.pages ∧ s'.nextPageId = s2.nextPageId ∧
      s'.headerPageNum = s2.headerPageNum ∧ s'.rootPageNum = s2.rootPageNum ∧
      s'.lowValInt = s2.lowValInt ∧ s'.highValInt = s2.highValInt ∧
      s'.lowOp = s2.lowOp ∧ s'.highOp = s2.highOp ∧
      s'.pins = s'.currentPageNum ::ₘ s2.pins ∧
      (∃ d, s'.events = d ++ s2.events ∧ unpinsClean d)) ∨
    (∃ s', startScanTail fuel s2 = .err .NoSuchKeyFound s' ∧
      s'.scanExecuting = false ∧
      s'.pages = s2.pages ∧ s'.nextPageId = s2.nextPageId ∧
      s'.headerPageNum = s2.headerPageNum ∧ s'.rootPageNum = s2.rootPageNum ∧
      s'.pins = s2.pins ∧
      (∃ d, s'.events = d ++ s2.events ∧ unpinsClean d)) := by
  rcases setPageIdForScan_cases fuel s2 with hd | ⟨t, hd⟩
  · refine Or.inl ?_
    rw [startScanTail]
    simp only [run_bind, hd]
  · obtain ⟨hpg, hnext, hhdr, hroot, hscan', hne, hlow, hhigh, hlop, hhop, hpins, hleaf,
      d1, hd1, hc1⟩ := setPageIdForScan_ok fuel s2 t hd
    cases hfi : firstIdxP (lowPredB t.lowOp t.lowValInt)
        (asLeaf (heapGet t.pages t.currentPageNum)).keyArray with
    | some i =>
      by_cases hstop : scanStopB
          ((asLeaf (heapGet t.pages t.currentPageNum)).ridArray.getD i ridZero)
          ((asLeaf (heapGet t.pages t.currentPageNum)).keyArray.getD i 0)
          t.highValInt t.highOp = true
      · have heq : startScanTail fuel s2 = .err .NoSuchKeyFound
            { t with nextEntry := i, scanExecuting := false,
                     pins := t.pins.erase t.currentPageNum,
                     events := .unpin t.currentPageNum false :: t.events } := by
          rw [startScanTail]
          simp only [run_bind, hd, setEntryIndexForScan_run, hfi, run_getS, run_peek, run_ite]
          rw [if_pos (by simpa using hstop)]
          rw [endScan_run_active (by simpa [hscan'] using hscan)]
          simp
        refine Or.inr (Or.inr ⟨_, heq, rfl, by simpa using hpg, by simpa using hnext,
          by simpa using hhdr, by simpa using hroot, ?_, ?_⟩)
        · simp only [hpins]
          exact Multiset.erase_cons_head _ _
        · exact ⟨.unpin t.currentPageNum false :: d1, by simpa using hd1, by simp [hc1]⟩
      · have heq : startScanTail fuel s2 = .ok () { t with nextEntry := i } := by
          rw [startScanTail]
          simp only [run_bind, hd, setEntryIndexForScan_run, hfi, run_getS, run_peek, run_ite]
          rw [if_neg (by simpa using hstop)]
          rfl
        refine Or.inr (Or.inl ⟨_, heq, by simpa [hscan'] using hscan, by simpa using hpg,
          by simpa using hnext, by simpa using hhdr, by simpa using hroot,
          by simpa using hlow, by simpa using hhigh, by simpa using hlop,
          by simpa using hhop, by simpa using hpins,
          d1, by simpa using hd1, hc1⟩)
    | none =>
      by_cases hstop : scanStopB
          ((asLeaf (heapGet t.pages
              (asLeaf (heapGet t.pages t.currentPageNum)).rightSibPageNo)).ridArray.getD 0 ridZero)
          ((asLeaf (heapGet t.pages
              (asLeaf (heapGet t.pages t.currentPageNum)).rightSibPageNo)).keyArray.getD 0 0)
          t.highValInt t.highOp = true
      · have heq : startScanTail fuel s2 = .err .NoSuchKeyFound
            { t with currentPageNum := (asLeaf (heapGet t.pages t.currentPageNum)).rightSibPageNo,
                     nextEntry := 0, scanExecuting := false,
                     pins := t.pins.erase t.currentPageNum,
                     events := .unpin (asLeaf (heapGet t.pages t.currentPageNum)).rightSibPageNo false ::
                       .pin (asLeaf (heapGet t.pages t.currentPageNum)).rightSibPageNo ::
                       .unpin t.currentPageNum false :: t.events } := by
          rw [startScanTail]
          simp only [run_bind, hd, setEntryIndexForScan_run, hfi, moveToNextPage_run,
            run_getS, run_peek, run_ite]
          rw [if_pos (by simpa using hstop)]
          rw [endScan_run_active (by simpa [hscan'] using hscan)]
          simp [Multiset.erase_cons_head]
        refine Or.inr (Or.inr ⟨_, heq, rfl, by simpa using hpg, by simpa using hnext,
          by simpa using hhdr, by simpa using hroot, ?_, ?_⟩)
        · simp only [hpins]
          exact Multiset.erase_cons_head _ _
        · exact ⟨.unpin (asLeaf (heapGet t.pages t.currentPageNum)).rightSibPageNo false ::
            .pin (asLeaf (heapGet t.pages t.currentPageNum)).rightSibPageNo ::
            .unpin t.currentPageNum false :: d1, by simpa using hd1, by simp [hc1]⟩
      · have heq : startScanTail fuel s2 = .ok ()
            { t with currentPageNum := (asLeaf (heapGet t.pages t.currentPageNum)).rightSibPageNo,
                     nextEntry := 0,
                     pins := (asLeaf (heapGet t.pages t.currentPageNum)).rightSibPageNo ::ₘ
                       t.pins.erase t.currentPageNum,
                     events := .pin (asLeaf (heapGet t.pages t.currentPageNum)).rightSibPageNo ::
                       .unpin t.currentPageNum false :: t.events } := by
          rw [startScanTail]
          simp only [run_bind, hd, setEntryIndexForScan_run, hfi, moveToNextPage_run,
            run_getS, run_peek, run_ite]
          rw [if_neg (by simpa using hstop)]
          rfl
        refine Or.inr (Or.inl ⟨_, heq, by simpa [hscan'] using hscan, by simpa using hpg,
          by simpa using hnext, by simpa using hhdr, by simpa using hroot,
          by simpa using hlow, by simpa using hhigh, by simpa using hlop,
          by simpa using hhop, ?_, ?_⟩)
        · simp only [hpins, Multiset.erase_cons_head]
        · exact ⟨.pin (asLeaf (heapGet t.pages t.currentPageNum)).rightSibPageNo ::
            .unpin t.currentPageNum false :: d1, by simpa using hd1, by simp [hc1]⟩

/-! ### Claim C7 -/

/-- C7: `start_scan` throws BadOpcodes exactly when `low_op ∉ {GT, GTE}` or
`high_op ∉ {LT, LTE}`; with valid operators it throws BadScanrange exactly
when `low_val > high_val`; in particular `start_scan(2, LTE, 5, LTE)` throws
BadOpcodes and `start_scan(5, GTE, 2, LTE)` throws BadScanrange; and on
either failure the scan-active flag is left as it was, so no scan becomes
active. -/
theorem claim_C7 :
    (∀ (s : BTState) (lowVal highVal : Int) (lop hop : Operator) (fuel : Nat),
      (∃ s', startScan lowVal lop highVal hop fuel s = .err .BadOpcodes s') ↔
        ((lop ≠ .GT ∧ lop ≠ .GTE) ∨ (hop ≠ .LT ∧ hop ≠ .LTE))) ∧
    (∀ (s : BTState) (lowVal highVal : Int) (lop hop : Operator) (fuel : Nat),
      ¬(lop ≠ .GT ∧ lop ≠ .GTE) → ¬(hop ≠ .LT ∧ hop ≠ .LTE) →
      ((∃ s', startScan lowVal lop highVal hop fuel s = .err .BadScanrange s') ↔
        lowVal > highVal)) ∧
    (∀ (s : BTState) (fuel : Nat),
      startScan 2 .LTE 5 .LTE fuel s = .err .BadOpcodes s) ∧
    (∀ (s : BTState) (fuel : Nat),
      startScan 5 .GTE 2 .LTE fuel s =
        .err .BadScanrange { s with lowValInt := 5, highValInt := 2 }) ∧
    (∀ (s s' : BTState) (lowVal highVal : Int) (lop hop : Operator) (fuel : Nat),
      (startScan lowVal lop highVal hop fuel s = .err .BadOpcodes s' ∨
       startScan lowVal lop highVal hop fuel s = .err .BadScanrange s') →
      s'.scanExecuting = s.scanExecuting) := by
  have houtcome : ∀ (s : BTState) (lowVal highVal : Int) (lop hop : Operator) (fuel : Nat)
      (e : BTError) (s' : BTState),
      ¬(lop ≠ .GT ∧ lop ≠ .GTE) → ¬(hop ≠ .LT ∧ hop ≠ .LTE) → ¬(lowVal > highVal) →
      startScan lowVal lop highVal hop fuel s = .err e s' → e = .NoSuchKeyFound := by
    intro s lowVal highVal lop hop fuel e s' h1 h2 h3 h
    rw [startScan_main_eq lowVal highVal lop hop fuel s h1 h2 h3] at h
    rcases startScanTail_spec fuel
        { s with lowValInt := lowVal, highValInt := highVal, lowOp := lop, highOp := hop,
                 scanExecuting := true,
                 currentPageNum := (asMeta (heapGet s.pages s.headerPageNum)).rootPageNo,
                 events := .unpin s.headerPageNum false :: .pin s.headerPageNum :: s.events }
        rfl with hc | ⟨t, hc, _⟩ | ⟨t, hc, _⟩ <;> rw [hc] at h
    · cases h
    · cases h
    · cases h
      rfl
  refine ⟨?_, ?_, ?_, ?_, ?_⟩
  · intro s lowVal highVal lop hop fuel
    constructor
    · rintro ⟨s', h⟩
      by_cases h1 : lop ≠ .GT ∧ lop ≠ .GTE
      · exact Or.inl h1
      · by_cases h2 : hop ≠ .LT ∧ hop ≠ .LTE
        · exact Or.inr h2
        · by_cases h3 : lowVal > highVal
          · rw [startScan_badrange lowVal highVal lop hop fuel s h1 h2 h3] at h
            cases h
          · exact absurd (houtcome s lowVal highVal lop hop fuel _ _ h1 h2 h3 h) (by simp)
    · rintro (h1 | h2)
      · exact ⟨s, startScan_badop_low lowVal highVal lop hop fuel s h1⟩
      · by_cases h1 : lop ≠ .GT ∧ lop ≠ .GTE
        · exact ⟨s, startScan_badop_low lowVal highVal lop hop fuel s h1⟩
        · exact ⟨s, startScan_badop_high lowVal highVal lop hop fuel s h1 h2⟩
  · intro s lowVal highVal lop hop fuel h1 h2
    constructor
    · rintro ⟨s', h⟩
      by_cases h3 : lowVal > highVal
      · exact h3
      · exact absurd (houtcome s lowVal highVal lop hop fuel _ _ h1 h2 h3 h) (by simp)
    · intro h3
      exact ⟨_, startScan_badrange lowVal highVal lop hop fuel s h1 h2 h3⟩
  · intro s fuel
    exact startScan_badop_low 2 5 .LTE .LTE fuel s (by simp)
  · intro s fuel
    exact startScan_badrange 5 2 .GTE .LTE fuel s (by simp) (by simp) (by norm_num)
  · intro s s' lowVal highVal lop hop fuel h
    by_cases h1 : lop ≠ .GT ∧ lop ≠ .GTE
    · rcases h with h | h <;>
        rw [startScan_badop_low lowVal highVal lop hop fuel s h1] at h <;> cases h <;> rfl
    · by_cases h2 : hop ≠ .LT ∧ hop ≠ .LTE
      · rcases h with h | h <;>
          rw [startScan_badop_high lowVal highVal lop hop fuel s h1 h2] at h <;>
          cases h <;> rfl
      · by_cases h3 : lowVal > highVal
        · rcases h with h | h <;>
            rw [startScan_badrange lowVal highVal lop hop fuel s h1 h2 h3] at h <;> cases h <;> rfl
        · rcases h with h | h <;>
            exact absurd (houtcome s lowVal highVal lop hop fuel _ _ h1 h2 h3 h) (by simp)

theorem claim_C7_witness :
    startScan 2 .LTE 5 .LTE 5 emptyState = .err .BadOpcodes emptyState ∧
    (∃ s', startScan 5 .GTE 2 .LTE 5 emptyState = .err .BadScanrange s') :=
  ⟨claim_C7.2.2.1 emptyState 5,
   (claim_C7.2.1 emptyState 5 2 .GTE .LTE 5 (by simp) (by simp)).mpr (by norm_num)⟩

/-! ### Claim C8 -/

/-- C8: `scan_next` and `end_scan` throw ScanNotInitialized whenever no scan
is active; and when `start_scan` ends in NoSuchKeyFound it has already
deactivated the scan and released every pin it took, so a following
`scan_next` throws ScanNotInitialized. -/
theorem claim_C8 :
    (∀ s : BTState, s.scanExecuting = false →
      scanNext s = .err .ScanNotInitialized s ∧ endScan s = .err .ScanNotInitialized s) ∧
    (∀ (s s' : BTState) (lowVal highVal : Int) (lop hop : Operator) (fuel : Nat),
      startScan lowVal lop highVal hop fuel s = .err .NoSuchKeyFound s' →
      s'.scanExecuting = false ∧ s'.pins = s.pins ∧
      scanNext s' = .err .ScanNotInitialized s') := by
  refine ⟨fun s h => ⟨scanNext_run_inactive h, endScan_run_inactive h⟩, ?_⟩
  intro s s' lowVal highVal lop hop fuel h
  by_cases h1 : lop ≠ .GT ∧ lop ≠ .GTE
  · rw [startScan_badop_low lowVal highVal lop hop fuel s h1] at h
    cases h
  by_cases h2 : hop ≠ .LT ∧ hop ≠ .LTE
  · rw [startScan_badop_high lowVal highVal lop hop fuel s h1 h2] at h
    cases h
  by_cases h3 : lowVal > highVal
  · rw [startScan_badrange lowVal highVal lop hop fuel s h1 h2 h3] at h
    cases h
  rw [startScan_main_eq lowVal highVal lop hop fuel s h1 h2 h3] at h
  rcases startScanTail_spec fuel
      { s with lowValInt := lowVal, highValInt := highVal, lowOp := lop, highOp := hop,
               scanExecuting := true,
               currentPageNum := (asMeta (heapGet s.pages s.headerPageNum)).rootPageNo,
               events := .unpin s.headerPageNum false :: .pin s.headerPageNum :: s.events }
      rfl with hc | ⟨t, hc, _⟩ | ⟨t, hc, hscan', _, _, _, _, hpins', _⟩ <;> rw [hc] at h
  · cases h
  · cases h
  · cases h
    exact ⟨hscan', by simpa using hpins', scanNext_run_inactive hscan'⟩

/-- A one-record tree used by witnesses (the heap a fresh `createIndex` with
NL = NI = 2 and the single record (5, (10,1)) produces). -/
def oneWitState : BTState :=
  { pages := [(1, .meta { relationName := "relA", attrByteOffset := 0, attrType := 1, rootPageNo := 2 }),
      (2, .node (.nonleaf { level := 1, keyArray := [6], pageNoArray := [3, 4], parent := 0 })),
      (3, .node (.leaf { keyArray := [5], ridArray := [⟨10, 1⟩], parent := 2, rightSibPageNo := 4 })),
      (4, .node (.leaf { keyArray := [], ridArray := [], parent := 2, rightSibPageNo := 0 }))],
    nextPageId := 5, headerPageNum := 1, rootPageNum := 2,
    scanExecuting := false, nextEntry := 0, currentPageNum := 0,
    lowValInt := 0, highValInt := 0, lowOp := .LT, highOp := .LT,
    pins := 0, events := [] }

/-- The state after `start_scan(100, GTE, 200, LTE)` fails with
NoSuchKeyFound on `oneWitState`. -/
def nskWitState : BTState :=
  { oneWitState with
      lowValInt := 100, highValInt := 200, lowOp := .GTE, highOp := .LTE,
      events := [.unpin 0 false, .pin 0, .unpin 4 false, .pin 4, .unpin 2 false,
        .pin 2, .unpin 1 false, .pin 1] }

theorem claim_C8_witness :
    scanNext emptyState = .err .ScanNotInitialized emptyState ∧
    nskWitState.scanExecuting = false ∧ nskWitState.pins = oneWitState.pins ∧
    scanNext nskWitState = .err .ScanNotInitialized nskWitState :=
  ⟨(claim_C8.1 emptyState rfl).1,
   claim_C8.2 oneWitState nskWitState 100 200 .GTE .LTE 10 (by decide)⟩

/-! ### Claim C3 -/

/-- C3: for an active scan standing on a leaf whose `right_sibling` is the
sentinel 0, once the cursor advances past the leaf's last valid entry (the
advance hops to page 0, whose zero-filled buffer holds only sentinel RIDs),
the next `scan_next` throws IndexScanCompleted and no other error. -/
theorem claim_C3 (s : BTState) (L : LeafNodeInt)
    (hscan : s.scanExecuting = true)
    (hcur : heapGet s.pages s.currentPageNum = some (.node (.leaf L)))
    (hsib : L.rightSibPageNo = 0)
    (hzero : heapGet s.pages 0 = none)
    (hadv : L.key_count ≤ s.nextEntry + 1 ∨
      (L.ridArray.getD (s.nextEntry + 1) ridZero).page_number = 0) :
    ∃ s1, setNextEntry s = .ok () s1 ∧ s1.currentPageNum = 0 ∧
      scanNext s1 = .err .IndexScanCompleted s1 := by
  have hrun : setNextEntry s = .ok ()
      { s with currentPageNum := 0, nextEntry := 0,
               pins := (0 : PageId) ::ₘ s.pins.erase s.currentPageNum,
               events := .pin 0 :: .unpin s.currentPageNum false :: s.events } := by
    rw [setNextEntry_run]
    rw [hcur]
    simp only [asLeaf]
    rw [if_pos (by simpa using hadv)]
    rw [moveToNextPage_run]
    rw [hsib]
  refine ⟨_, hrun, rfl, ?_⟩
  apply scanNext_run_stop
  · exact hscan
  · simp only [hzero]
    simp [asLeaf, zeroLeaf, scanStopB, ridZero]

/-- The leaf of the concrete C3 instance: last of the chain, one entry. -/
def c3WitLeaf : LeafNodeInt :=
  { keyArray := [5], ridArray := [⟨10, 1⟩], parent := 2, rightSibPageNo := 0 }

/-- A concrete instance for C3: a one-leaf heap whose leaf is the last of the
chain, with the cursor on its final entry. -/
def c3WitState : BTState :=
  { pages := [(3, .node (.leaf c3WitLeaf))],
    nextPageId := 4, headerPageNum := 1, rootPageNum := 2,
    scanExecuting := true, nextEntry := 0, currentPageNum := 3,
    lowValInt := 0, highValInt := 9, lowOp := .GTE, highOp := .LTE,
    pins := ({3} : Multiset PageId), events := [] }

theorem claim_C3_witness :
    ∃ s1, setNextEntry c3WitState = .ok () s1 ∧ s1.currentPageNum = 0 ∧
      scanNext s1 = .err .IndexScanCompleted s1 :=
  claim_C3 c3WitState c3WitLeaf rfl (by decide) rfl rfl (by decide)

/-! ### Claim C9 -/

theorem wrap32_eq (x : Int) (h1 : -2147483648 ≤ x) (h2 : x < 2147483648) : wrap32 x = x := by
  unfold wrap32
  have h3 : (0 : Int) ≤ x + 2147483648 := by omega
  have h4 : x + 2147483648 < 4294967296 := by omega
  rw [Int.emod_eq_of_lt h3 h4]
  omega

/-- A freshly created index file: meta page 1, empty root at page 2, as the
create branch of the constructor leaves it before the first insert. -/
def c9FreshState : BTState :=
  { pages := [(1, .meta { relationName := "relA", attrByteOffset := 0, attrType := 1, rootPageNo := 2 }),
      (2, .node (.nonleaf { level := 0, keyArray := [], pageNoArray := [], parent := 0 }))],
    nextPageId := 3, headerPageNum := 1, rootPageNum := 2,
    scanExecuting := false, nextEntry := 0, currentPageNum := 0,
    lowValInt := 0, highValInt := 0, lowOp := .LT, highOp := .LT,
    pins := 0, events := [] }

/-- C9 counterexample: on the very first insert with key INT_MAX =
2147483647, the root's single separator is stored as the wrapped value
-2147483648, which is not strictly greater than the inserted key — the claim
"a value strictly greater than the inserted key, for every possible integer
key" fails at this input. -/
theorem claim_C9_counterexample :
    heapGet (resState (insertEntry 2 2 5 2147483647 ⟨10, 1⟩ c9FreshState) c9FreshState).pages 2 =
      some (.node (.nonleaf ⟨1, [-2147483648], [3, 4], 0⟩)) ∧
    ¬((-2147483648 : Int) > 2147483647) := by
  constructor
  · decide
  · decide

/-- C9 (amended): the first insert into a tree whose root has key_count 0
allocates exactly two pages, both leaves; writes (key, rid) as the sole
entry of the left leaf; sets the root's single separator to the 32-bit wrap
of `key + 1` — strictly greater than the key for every key except INT_MAX =
2147483647, where it wraps to -2147483648; sets the root's level to 1 and
key_count to 1; wires left.right_sibling to the right leaf and
right.right_sibling to 0; and sets both leaves' parent to the root. -/
theorem claim_C9_amended (NL NI fuel : Nat) (s : BTState) (key : Int) (rid : RecordId)
    (root : NonLeafNodeInt)
    (hroot : heapGet s.pages s.rootPageNum = some (.node (.nonleaf root)))
    (hcount : root.key_count = 0)
    (hfresh : s.rootPageNum < s.nextPageId)
    (hk : In32 key) :
    ∃ s', insertEntry NL NI (fuel + 1) key rid s = .ok () s' ∧
      s'.nextPageId = s.nextPageId + 2 ∧
      heapGet s'.pages s.nextPageId = some (.node (.leaf
        { keyArray := [key], ridArray := [rid], parent := s.rootPageNum,
          rightSibPageNo := s.nextPageId + 1 })) ∧
      heapGet s'.pages (s.nextPageId + 1) = some (.node (.leaf
        { keyArray := [], ridArray := [], parent := s.rootPageNum, rightSibPageNo := 0 })) ∧
      heapGet s'.pages s.rootPageNum = some (.node (.nonleaf
        { root with keyArray := [wrap32 (key + 1)],
                    pageNoArray := [s.nextPageId, s.nextPageId + 1], level := 1 })) ∧
      ({ root with keyArray := [wrap32 (key + 1)],
                   pageNoArray := [s.nextPageId, s.nextPageId + 1],
                   level := 1 } : NonLeafNodeInt).key_count = 1 ∧
      (∀ p, p ≠ s.nextPageId → p ≠ s.nextPageId + 1 → p ≠ s.rootPageNum →
        heapGet s'.pages p = heapGet s.pages p) ∧
      s'.pins = s.pins ∧
      (key ≠ 2147483647 → wrap32 (key + 1) > key) ∧
      (key = 2147483647 → wrap32 (key + 1) = -2147483648) := by
  have hcount' : root.keyArray = [] := List.length_eq_zero.mp hcount
  have heq : insertEntry NL NI (fuel + 1) key rid s = .ok ()
      { s with
          nextPageId := s.nextPageId + 1 + 1,
          pages := heapSet (heapSet (heapSet s.pages s.nextPageId (.node (.leaf
            { keyArray := [key], ridArray := [rid], parent := s.rootPageNum,
              rightSibPageNo := s.nextPageId + 1 }))) (s.nextPageId + 1) (.node (.leaf
            { keyArray := [], ridArray := [], parent := s.rootPageNum, rightSibPageNo := 0 })))
            s.rootPageNum (.node (.nonleaf
            { root with keyArray := [wrap32 (key + 1)],
                        pageNoArray := [s.nextPageId, s.nextPageId + 1], level := 1 })),
          events := .unpin s.rootPageNum true :: .unpin (s.nextPageId + 1) true ::
            .unpin s.nextPageId true :: .write s.rootPageNum :: .write (s.nextPageId + 1) ::
            .write s.nextPageId :: .pin (s.nextPageId + 1) :: .pin s.nextPageId ::
            .pin s.rootPageNum :: s.events } := by
    rw [insertEntry]
    simp only [run_bind, run_getS]
    rw [insert]
    simp only [run_bind, run_readPage, run_ite, run_pure, run_unPinPage, run_writePage,
      run_allocPage, hroot, isLeafD, asNonLeaf]
    rw [if_pos hcount]
    simp only [if_true, ms_e2, Multiset.erase_cons_head]
  have hLR : s.nextPageId ≠ s.nextPageId + 1 := Nat.ne_of_lt (Nat.lt_succ_self _)
  have hLroot : s.rootPageNum ≠ s.nextPageId := Nat.ne_of_lt hfresh
  have hRroot : s.rootPageNum ≠ s.nextPageId + 1 := Nat.ne_of_lt (Nat.lt_succ_of_lt hfresh)
  obtain ⟨hk1, hk2⟩ := hk
  refine ⟨_, heq, rfl, ?_, ?_, ?_, rfl, ?_, rfl, ?_, ?_⟩
  · rw [heapGet_heapSet_ne _ _ _ _ (Ne.symm hLroot), heapGet_heapSet_ne _ _ _ _ hLR,
      heapGet_heapSet_self]
  · rw [heapGet_heapSet_ne _ _ _ _ (Ne.symm hRroot), heapGet_heapSet_self]
  · rw [heapGet_heapSet_self]
  · intro p h1 h2 h3
    rw [heapGet_heapSet_ne _ _ _ _ h3, heapGet_heapSet_ne _ _ _ _ h2,
      heapGet_heapSet_ne _ _ _ _ h1]
  · intro hne
    rw [wrap32_eq (key + 1) (by omega) (by omega)]
    omega
  · intro hmax
    subst hmax
    decide

/-! ### Claim C1 -/

/-- Stepping one successful action through a `bind`. -/
theorem bind_ok {α β : Type} {x : M α} {f : α → M β} {s s' : BTState} {a : α}
    (h : x s = .ok a s') : (x >>= f) s = f a s' := by
  rw [run_bind, h]

/-- The tree after `insert_entry(5, (10,1))` into the fresh index: bootstrap
root `[6] → [3, 4]`, pair in leaf 3, empty rightmost leaf 4. -/
def c1A1 : BTState :=
  { pages := [(1, .meta { relationName := "relA", attrByteOffset := 0, attrType := 1, rootPageNo := 2 }),
      (2, .node (.nonleaf { level := 1, keyArray := [6], pageNoArray := [3, 4], parent := 0 })),
      (3, .node (.leaf { keyArray := [5], ridArray := [⟨10, 1⟩], parent := 2, rightSibPageNo := 4 })),
      (4, .node (.leaf { keyArray := [], ridArray := [], parent := 2, rightSibPageNo := 0 }))],
    nextPageId := 5, headerPageNum := 1, rootPageNum := 2,
    scanExecuting := false, nextEntry := 0, currentPageNum := 0,
    lowValInt := 0, highValInt := 0, lowOp := .LT, highOp := .LT,
    pins := 0,
    events := [.unpin 2 true, .unpin 4 true, .unpin 3 true, .write 2, .write 4, .write 3,
      .pin 4, .pin 3, .pin 2] }

/-- After the second `insert_entry(5, (10,2))`: leaf 3 now holds both
duplicates and is full at capacity `INTARRAYLEAFSIZE = 2`. -/
def c1A2 : BTState :=
  { pages := [(1, .meta { relationName := "relA", attrByteOffset := 0, attrType := 1, rootPageNo := 2 }),
      (2, .node (.nonleaf { level := 1, keyArray := [6], pageNoArray := [3, 4], parent := 0 })),
      (3, .node (.leaf { keyArray := [5, 5], ridArray := [⟨10, 1⟩, ⟨10, 2⟩], parent := 2, rightSibPageNo := 4 })),
      (4, .node (.leaf { keyArray := [], ridArray := [], parent := 2, rightSibPageNo := 0 }))],
    nextPageId := 5, headerPageNum := 1, rootPageNum := 2,
    scanExecuting := false, nextEntry := 0, currentPageNum := 0,
    lowValInt := 0, highValInt := 0, lowOp := .LT, highOp := .LT,
    pins := 0,
    events := [.unpin 2 true, .unpin 3 true, .write 3, .pin 3, .pin 2] ++ c1A1.events }

/-- Mid-descent state of the third insert: root page 2 pinned. -/
def c1Sa : BTState := { c1A2 with pins := 2 ::ₘ c1A2.pins, events := .pin 2 :: c1A2.events }

/-- Mid-descent state of the third insert: leaf page 3 pinned on top. -/
def c1Sb : BTState := { c1Sa with pins := 3 ::ₘ c1Sa.pins, events := .pin 3 :: c1Sa.events }

/-- The state `leafSplitInsert` leaves from `c1Sb`: keys `[5]`/`(10,1)` stay
in leaf 3, the new leaf 5 gets `[5, 5]` with `(10,2), (10,3)`, the root
separator for the split is 5 routing `< 5` to leaf 3, and page 6 is the
leaked auxiliary internal node. -/
def c1Tc : BTState :=
  { pages := [(1, .meta { relationName := "relA", attrByteOffset := 0, attrType := 1, rootPageNo := 2 }),
      (2, .node (.nonleaf { level := 1, keyArray := [5, 6], pageNoArray := [3, 5, 4], parent := 0 })),
      (3, .node (.leaf { keyArray := [5], ridArray := [⟨10, 1⟩], parent := 2, rightSibPageNo := 5 })),
      (4, .node (.leaf { keyArray := [], ridArray := [], parent := 2, rightSibPageNo := 0 })),
      (6, .node (.nonleaf { level := 1, keyArray := [5], pageNoArray := [3, 5], parent := 0 })),
      (5, .node (.leaf { keyArray := [5, 5], ridArray := [⟨10, 2⟩, ⟨10, 3⟩], parent := 2, rightSibPageNo := 4 }))],
    nextPageId := 7, headerPageNum := 1, rootPageNum := 2,
    scanExecuting := false, nextEntry := 0, currentPageNum := 0,
    lowValInt := 0, highValInt := 0, lowOp := .LT, highOp := .LT,
    pins := (3 ::ₘ 2 ::ₘ 0 : Multiset PageId),
    events := [.unpin 6 true, .unpin 5 true, .unpin 3 true, .unpin 2 true, .unpin 6 true,
      .unpin 5 true, .unpin 3 true, .write 5, .write 3, .pin 5, .pin 3, .write 2, .pin 2,
      .pin 6, .write 5, .write 3, .write 6, .pin 6, .pin 5, .pin 3] ++ c1Sb.events }

/-- Unwinding the third insert: the leaf frame releases page 3. -/
def c1Tb : BTState := { c1Tc with pins := c1Tc.pins.erase 3, events := .unpin 3 true :: c1Tc.events }

/-- The tree after the third `insert_entry(5, (10,3))` returns. -/
def c1A3 : BTState := { c1Tb with pins := c1Tb.pins.erase 2, events := .unpin 2 true :: c1Tb.events }

/-- The cursor state of `start_scan(5, GTE, 5, LTE)` on that tree: the root
routes key 5 past the separator 5 straight to leaf 5, skipping leaf 3. -/
def c1A4 : BTState :=
  { c1A3 with scanExecuting := true, nextEntry := 0, currentPageNum := 5,
              lowValInt := 5, highValInt := 5, lowOp := .GTE, highOp := .LTE,
              pins := (5 ::ₘ 0 : Multiset PageId),
              events := .pin 5 :: .unpin 2 false :: .pin 2 :: .unpin 1 false :: .pin 1 :: c1A3.events }

/-- The error that ends a driven scan. -/
def scanFinalErr : Nat → BTState → Option BTError
  | 0, _ => none
  | fuel + 1, s =>
    match scanNext s with
    | .ok _ s' => scanFinalErr fuel s'
    | .err e _ => some e
    | .fuelOut => none

theorem c1_step1 : insertEntry 2 2 3 5 ⟨10, 1⟩ c9FreshState = .ok () c1A1 := by decide

theorem c1_step2 : insertEntry 2 2 3 5 ⟨10, 2⟩ c1A1 = .ok () c1A2 := by decide

theorem c1_split : leafSplitInsert 2 2 1 5 3 ⟨10, 3⟩ c1Sb = .ok () c1Tc := by decide

theorem c1_leafFrame : insert 2 2 (1 + 1) 5 3 ⟨10, 3⟩ c1Sa = .ok () c1Tb := by
  rewrite [insert]
  rewrite [bind_ok (run_readPage 3 c1Sa)]
  beta_reduce
  rewrite [show heapGet c1Sa.pages 3 =
    some (.node (.leaf ⟨[5, 5], [⟨10, 1⟩, ⟨10, 2⟩], 2, 4⟩)) from rfl]
  rewrite [show isLeafD (some (.node (.leaf ⟨[5, 5], [⟨10, 1⟩, ⟨10, 2⟩], 2, 4⟩))) = 1 from rfl]
  rewrite [if_neg (by decide : ¬((1 : Int) = 0))]
  rewrite [if_pos (rfl : (1 : Int) = 1)]
  rewrite [show asLeaf (some (.node (.leaf ⟨[5, 5], [⟨10, 1⟩, ⟨10, 2⟩], 2, 4⟩))) =
    ⟨[5, 5], [⟨10, 1⟩, ⟨10, 2⟩], 2, 4⟩ from rfl]
  rewrite [if_neg (by decide :
    ¬((⟨[5, 5], [⟨10, 1⟩, ⟨10, 2⟩], 2, 4⟩ : LeafNodeInt).key_count < 2))]
  rewrite [show { c1Sa with pins := 3 ::ₘ c1Sa.pins, events := .pin 3 :: c1Sa.events } = c1Sb from rfl]
  rewrite [bind_ok c1_split]
  exact rfl

theorem c1_step3 : insertEntry 2 2 3 5 ⟨10, 3⟩ c1A2 = .ok () c1A3 := by
  show insertEntry 2 2 ((1 + 1) + 1) 5 ⟨10, 3⟩ c1A2 = .ok () c1A3
  rewrite [insertEntry]
  rewrite [bind_ok (run_getS c1A2)]
  rewrite [show c1A2.rootPageNum = 2 from rfl]
  rewrite [insert]
  rewrite [bind_ok (run_readPage 2 c1A2)]
  beta_reduce
  rewrite [show heapGet c1A2.pages 2 =
    some (.node (.nonleaf ⟨1, [6], [3, 4], 0⟩)) from rfl]
  rewrite [show isLeafD (some (.node (.nonleaf ⟨1, [6], [3, 4], 0⟩))) = 0 from rfl]
  rewrite [if_pos (rfl : (0 : Int) = 0)]
  rewrite [show asNonLeaf (some (.node (.nonleaf ⟨1, [6], [3, 4], 0⟩))) =
    ⟨1, [6], [3, 4], 0⟩ from rfl]
  rewrite [if_neg (by decide : ¬((⟨1, [6], [3, 4], 0⟩ : NonLeafNodeInt).key_count = 0))]
  rewrite [show (⟨1, [6], [3, 4], 0⟩ : NonLeafNodeInt).pageNoArray.getD
    (insertChildIndex ⟨1, [6], [3, 4], 0⟩ 5) 0 = 3 from by decide]
  rewrite [show { c1A2 with pins := 2 ::ₘ c1A2.pins, events := .pin 2 :: c1A2.events } = c1Sa from rfl]
  rewrite [bind_ok c1_leafFrame]
  exact rfl

theorem c1_scan : startScan 5 .GTE 5 .LTE 9 c1A3 = .ok () c1A4 := by decide

/-- C1: refuted — the all-inclusive-scan contract fails on duplicate keys.
Building the index by inserting (5,(10,1)), (5,(10,2)), (5,(10,3)) with leaf
and internal capacity 2 makes the third insert split the full leaf; the
split picks separator 5 (the first key of the right half), leaves (10,1)
in the left leaf, and the routing rule sends the scan's low key 5 past the
separator directly to the right leaf, so the scan emits only (10,2) and
(10,3): the pair (5,(10,1)) is silently lost by an all-inclusive scan
(GTE 5 / LTE 5) although it stands in the tree. -/
theorem claim_C1 :
    insertAll 2 2 3 [(5, ⟨10, 1⟩), (5, ⟨10, 2⟩), (5, ⟨10, 3⟩)] c9FreshState = .ok () c1A3 ∧
    startScan 5 .GTE 5 .LTE 9 c1A3 = .ok () c1A4 ∧
    collectScan 9 c1A4 = [⟨10, 2⟩, ⟨10, 3⟩] ∧
    scanFinalErr 9 c1A4 = some .IndexScanCompleted ∧
    (collectScan 9 c1A4 : Multiset RecordId) ≠ {⟨10, 1⟩, ⟨10, 2⟩, ⟨10, 3⟩} ∧
    (⟨10, 1⟩ : RecordId) ∉ collectScan 9 c1A4 ∧
    heapGet c1A3.pages 3 = some (.node (.leaf ⟨[5], [⟨10, 1⟩], 2, 5⟩)) := by
  refine ⟨?_, c1_scan, by decide, by decide, by decide, by decide, by decide⟩
  rewrite [insertAll]
  rewrite [bind_ok c1_step1]
  rewrite [insertAll]
  rewrite [bind_ok c1_step2]
  rewrite [insertAll]
  rewrite [bind_ok c1_step3]
  rewrite [insertAll]
  exact rfl

/-! ### Claim C6 -/

/-- C6 counterexample: during the second insert, the root page 2 is pinned,
only read (the write in the trace delta touches leaf 3 only), and yet
unpinned with `dirty = true` (btree.cpp line 239) — the claimed
"dirty = true iff the page's bytes were modified while pinned" fails. -/
theorem claim_C6_counterexample :
    insertEntry 2 2 3 5 ⟨10, 2⟩ c1A1 = .ok () c1A2 ∧
    c1A2.events = [.unpin 2 true, .unpin 3 true, .write 3, .pin 3, .pin 2] ++ c1A1.events ∧
    Event.unpin 2 true ∈ ([.unpin 2 true, .unpin 3 true, .write 3, .pin 3, .pin 2] : List Event) ∧
    Event.write 2 ∉ ([.unpin 2 true, .unpin 3 true, .write 3, .pin 3, .pin 2] : List Event) :=
  ⟨c1_step2, rfl, by decide, by decide⟩

/-- C6 (amended): the dirty flag is not "iff the page's bytes were modified
while pinned"; instead it is constant per code path.  Every unpin issued
under `insert_entry` passes `dirty = true`, including pages that were only
read during the descent; every unpin issued under `start_scan`, `scan_next`,
`end_scan` and the open branch of the constructor passes `dirty = false`.
Both normal returns and throwing exits only append such events. -/
theorem claim_C6_amended (NL NI fuel : Nat) :
    (∀ (key : Int) (rid : RecordId), EvRun true (insertEntry NL NI fuel key rid)) ∧
    (∀ (lo hi : Int) (lop hop : Operator), EvRun false (startScan lo lop hi hop fuel)) ∧
    EvRun false scanNext ∧
    EvRun false endScan ∧
    (∀ (rel : String) (off : Int) (ty : Nat), EvRun false (openIndex rel off ty)) :=
  ⟨fun key rid => evRun_insertEntry NL NI fuel key rid,
   fun lo hi lop hop => evRun_startScan lo lop hi hop fuel,
   evRun_scanNext, evRun_endScan,
   fun rel off ty => evRun_openIndex rel off ty⟩

theorem claim_C6_witness :
    ∃ l, c1A2.events = l ++ c1A1.events ∧ unpinsAll true l := by
  have h := (claim_C6_amended 2 2 3).1 5 ⟨10, 2⟩ c1A1
  rewrite [c1_step2] at h
  exact h

/-! ### Claim C5: node-fill invariant -/

/-- The fill bound a page of the index file actually satisfies: a leaf holds
a key or is the rightmost leaf (`right_sibling = 0`); an internal node holds
a key or is a never-promoted node of `level = 0`. -/
def nodeMinB : PageContent → Bool
  | .meta _ => true
  | .node (.leaf L) => decide (1 ≤ L.key_count) || decide (L.rightSibPageNo = 0)
  | .node (.nonleaf N) => decide (1 ≤ N.key_count) || decide (N.level = 0)

/-- Every written page of the file satisfies `nodeMinB`. -/
def pagesMinB (pg : List (PageId × PageContent)) : Bool := pg.all (fun qc => nodeMinB qc.2)

theorem pagesMinB_get {pg : List (PageId × PageContent)} {p : PageId} {c : PageContent}
    (h : pagesMinB pg = true) (hg : heapGet pg p = some c) : nodeMinB c = true := by
  induction pg with
  | nil => simp [heapGet] at hg
  | cons hd t ih =>
    obtain ⟨q, d⟩ := hd
    simp only [pagesMinB, List.all_cons, Bool.and_eq_true] at h
    rw [heapGet] at hg
    by_cases hq : q = p
    · rw [if_pos hq] at hg
      cases hg
      exact h.1
    · rw [if_neg hq] at hg
      exact ih h.2 hg

theorem pagesMinB_heapSet {pg : List (PageId × PageContent)} {p : PageId} {c : PageContent}
    (h : pagesMinB pg = true) (hc : nodeMinB c = true) :
    pagesMinB (heapSet pg p c) = true := by
  induction pg with
  | nil => simp [heapSet, pagesMinB, hc]
  | cons hd t ih =>
    obtain ⟨q, d⟩ := hd
    simp only [pagesMinB, List.all_cons, Bool.and_eq_true] at h
    rw [heapSet]
    by_cases hq : q = p
    · rw [if_pos hq]
      simp only [pagesMinB, List.all_cons, Bool.and_eq_true]
      exact ⟨hc, h.2⟩
    · rw [if_neg hq]
      simp only [pagesMinB, List.all_cons, Bool.and_eq_true]
      exact ⟨h.1, ih h.2⟩

theorem firstIdxP_getD_le (p : Int → Bool) (l : List Int) :
    (firstIdxP p l).getD l.length ≤ l.length := by
  induction l with
  | nil => simp [firstIdxP]
  | cons x t ih =>
    rw [firstIdxP]
    by_cases hx : p x
    · rw [if_pos hx]
      simp
    · rw [if_neg hx]
      cases hfi : firstIdxP p t with
      | none => simp
      | some i =>
        rw [hfi] at ih
        simp only [Option.getD_some] at ih
        simp only [Option.map_some', Option.getD_some, List.length_cons]
        omega

theorem leafInsert_count (node : LeafNodeInt) (k : Int) (rid : RecordId) :
    (leafInsert node k rid).key_count = node.key_count + 1 := by
  have hle := firstIdxP_getD_le (fun x => decide (k < x)) node.keyArray
  simp only [leafInsert, LeafNodeInt.key_count]
  rw [List.length_insertIdx _ _ hle]

theorem nonleafInsert_count (node : NonLeafNodeInt) (k : Int) (c0 c1 : PageId) :
    (nonleafInsert node k c0 c1).key_count = node.key_count + 1 := by
  have hle := firstIdxP_getD_le (fun x => decide (k < x)) node.keyArray
  simp only [nonleafInsert, NonLeafNodeInt.key_count]
  rw [List.length_insertIdx _ _ hle]

theorem nodeMin_leafInsert (node : LeafNodeInt) (k : Int) (rid : RecordId) :
    nodeMinB (.node (.leaf (leafInsert node k rid))) = true := by
  simp [nodeMinB, leafInsert_count]

theorem nodeMin_nonleafInsert (node : NonLeafNodeInt) (k : Int) (c0 c1 : PageId) :
    nodeMinB (.node (.nonleaf (nonleafInsert node k c0 c1))) = true := by
  simp [nodeMinB, nonleafInsert_count]

theorem nodeMin_reparent_leaf (pg : Option PageContent) (x : PageId)
    (h : ∀ c, pg = some c → nodeMinB c = true) :
    nodeMinB (.node (.leaf { asLeaf pg with parent := x })) = true := by
  cases pg with
  | none => simp [asLeaf, zeroLeaf, nodeMinB, LeafNodeInt.key_count]
  | some c =>
    have hc := h c rfl
    cases c with
    | meta m => simp [asLeaf, zeroLeaf, nodeMinB, LeafNodeInt.key_count]
    | node n =>
      cases n with
      | leaf L =>
        simp only [nodeMinB, LeafNodeInt.key_count] at hc
        simpa [asLeaf, nodeMinB, LeafNodeInt.key_count] using hc
      | nonleaf N => simp [asLeaf, zeroLeaf, nodeMinB, LeafNodeInt.key_count]

theorem nodeMin_reparent_nonleaf (pg : Option PageContent) (x : PageId)
    (h : ∀ c, pg = some c → nodeMinB c = true) :
    nodeMinB (.node (.nonleaf { asNonLeaf pg with parent := x })) = true := by
  cases pg with
  | none => simp [asNonLeaf, zeroNonLeaf, nodeMinB, NonLeafNodeInt.key_count]
  | some c =>
    have hc := h c rfl
    cases c with
    | meta m => simp [asNonLeaf, zeroNonLeaf, nodeMinB, NonLeafNodeInt.key_count]
    | node n =>
      cases n with
      | leaf L => simp [asNonLeaf, zeroNonLeaf, nodeMinB, NonLeafNodeInt.key_count]
      | nonleaf N =>
        simp only [nodeMinB, NonLeafNodeInt.key_count] at hc
        simpa [asNonLeaf, nodeMinB, NonLeafNodeInt.key_count] using hc

/-- "The run of `m` from `s` reaches only states whose pages all satisfy the
fill bound." -/
def RunMin {α : Type} (m : M α) (s : BTState) : Prop :=
  match m s with
  | .ok _ s' => pagesMinB s'.pages = true
  | .err _ s' => pagesMinB s'.pages = true
  | .fuelOut => True

theorem runMin_bind {α β : Type} {x : M α} {f : α → M β} {s s1 : BTState} {a : α}
    (hx : x s = .ok a s1) : RunMin (x >>= f) s = RunMin (f a) s1 := by
  unfold RunMin
  rw [bind_ok hx]

theorem runMin_bind_total {α β : Type} {x : M α} {f : α → M β} {s : BTState}
    (hx : RunMin x s) (hf : ∀ a s1, pagesMinB s1.pages = true → RunMin (f a) s1) :
    RunMin (x >>= f) s := by
  unfold RunMin at *
  rw [run_bind]
  cases hxs : x s with
  | fuelOut => exact trivial
  | err e s1 =>
    rw [hxs] at hx
    exact hx
  | ok a s1 =>
    rw [hxs] at hx
    dsimp only
    exact hf a s1 hx

theorem runMin_unpin (p : PageId) (b : Bool) {s : BTState}
    (hs : pagesMinB s.pages = true) : RunMin (unPinPage p b) s := hs

theorem runMin_pure {α : Type} (a : α) {s : BTState}
    (hs : pagesMinB s.pages = true) : RunMin (Pure.pure a : M α) s := hs

theorem runMin_write (p : PageId) (c : PageContent) {s : BTState}
    (hs : pagesMinB s.pages = true) (hc : nodeMinB c = true) :
    RunMin (writePage p c) s := pagesMinB_heapSet hs hc

/-- `m` preserves the fill bound from every state satisfying it. -/
def MinRun {α : Type} (m : M α) : Prop :=
  ∀ s, pagesMinB s.pages = true → RunMin m s

theorem minRun_bind {α β : Type} {x : M α} {f : α → M β}
    (hx : MinRun x) (hf : ∀ a, MinRun (f a)) : MinRun (x >>= f) :=
  fun s hs => runMin_bind_total (hx s hs) (fun a t ht => hf a t ht)

theorem minRun_read (p : PageId) : MinRun (readPage p) := fun _ hs => hs

theorem minRun_peek (p : PageId) : MinRun (peek p) := fun _ hs => hs

theorem minRun_alloc : MinRun allocPage := fun _ hs => hs

theorem minRun_getS : MinRun getS := fun _ hs => hs

theorem minRun_unpin (p : PageId) (b : Bool) : MinRun (unPinPage p b) := fun _ hs => hs

theorem minRun_pure {α : Type} (a : α) : MinRun (Pure.pure a : M α) := fun _ hs => hs

theorem minRun_throw {α : Type} (e : BTError) : MinRun (throwE e : M α) := fun _ hs => hs

theorem minRun_modifyPg (f : BTState → BTState) (h : ∀ t, (f t).pages = t.pages) :
    MinRun (modifyS f) := by
  intro s hs
  show pagesMinB (f s).pages = true
  rw [h]
  exact hs

theorem minRun_write (p : PageId) (c : PageContent) (hc : nodeMinB c = true) :
    MinRun (writePage p c) := fun _ hs => pagesMinB_heapSet hs hc

theorem minRun_ite {α : Type} {c : Prop} [Decidable c] {x y : M α}
    (hx : c → MinRun x) (hy : ¬c → MinRun y) : MinRun (if c then x else y) := by
  intro s hs
  by_cases hc : c
  · rw [if_pos hc]
    exact hx hc s hs
  · rw [if_neg hc]
    exact hy hc s hs

/-- Bind through a `readPage`, handing the continuation the fill bound of the
value read. -/
theorem minRun_bind_read {β : Type} {p : PageId} {f : Option PageContent → M β}
    (hf : ∀ a, (∀ c, a = some c → nodeMinB c = true) → MinRun (f a)) :
    MinRun (readPage p >>= f) := by
  intro s hs
  rw [runMin_bind (run_readPage p s)]
  exact hf _ (fun c hc => pagesMinB_get hs hc) _ hs

/-- Bind through a `peek`, handing the continuation the fill bound of the
value read. -/
theorem minRun_bind_peek {β : Type} {p : PageId} {f : Option PageContent → M β}
    (hf : ∀ a, (∀ c, a = some c → nodeMinB c = true) → MinRun (f a)) :
    MinRun (peek p >>= f) := by
  intro s hs
  rw [runMin_bind (run_peek p s)]
  exact hf _ (fun c hc => pagesMinB_get hs hc) _ hs


/-- Bind through a `readPage`, handing the continuation the explicit
post-read state (the insert path needs the tie between the value read and
the heap it came from). -/
theorem minRun_bind_read' {β : Type} {p : PageId} {f : Option PageContent → M β}
    (hf : ∀ (s1 : BTState), pagesMinB s1.pages = true →
      RunMin (f (heapGet s1.pages p))
        { s1 with pins := p ::ₘ s1.pins, events := .pin p :: s1.events }) :
    MinRun (readPage p >>= f) := by
  intro s hs
  rw [runMin_bind (run_readPage p s)]
  exact hf s hs

theorem minRun_reparentOne (lvl : Int) (child newPar : PageId) :
    MinRun (reparentOne lvl child newPar) := by
  rw [reparentOne]
  apply minRun_bind_read
  intro pg hk
  apply minRun_ite
  · intro h1
    exact minRun_bind (minRun_write _ _ (nodeMin_reparent_leaf _ _ hk))
      (fun _ => minRun_unpin _ _)
  · intro h1
    exact minRun_bind (minRun_write _ _ (nodeMin_reparent_nonleaf _ _ hk))
      (fun _ => minRun_unpin _ _)

theorem minRun_reparentAll (lvl : Int) : ∀ (children : List PageId) (newPar : PageId),
    MinRun (reparentAll lvl children newPar) := by
  intro children
  induction children with
  | nil =>
    intro newPar
    rw [reparentAll]
    exact minRun_pure _
  | cons c cs ih =>
    intro newPar
    rw [reparentAll]
    exact minRun_bind (minRun_reparentOne _ _ _) (fun _ => ih _)

/-- The shared tail of the split branch of `combineNonleaf` (lines 452-509):
reparent both halves, hand them to the fresh parent, promote it on a root
split or recurse into the old parent, release the pins. -/
theorem minRun_combineTail (NI n : Nat) (nid npid p1 p2 : PageId)
    (ih : ∀ (q1 q2 : PageId), MinRun (combineNonleaf NI n q1 q2)) :
    MinRun (do
      let pgA ← peek p2
      reparentAll (asNonLeaf pgA).level (childList (asNonLeaf pgA)) p2
      let pgB ← peek nid
      reparentAll (asNonLeaf pgB).level (childList (asNonLeaf pgB)) nid
      let pgC ← peek p2
      writePage p2 (.node (.nonleaf { asNonLeaf pgC with parent := npid }))
      let pgD ← peek nid
      writePage nid (.node (.nonleaf { asNonLeaf pgD with parent := npid }))
      if (asNonLeaf pgC).parent = 0 then
        let pgE ← peek npid
        writePage npid (.node (.nonleaf { asNonLeaf pgE with parent := 0 }))
        let st ← getS
        let pgM ← readPage st.headerPageNum
        modifyS (fun s' => { s' with rootPageNum := npid })
        writePage st.headerPageNum (.meta { asMeta pgM with rootPageNo := npid })
        unPinPage st.headerPageNum true
      else
        combineNonleaf NI n npid (asNonLeaf pgC).parent
      unPinPage nid true
      unPinPage npid true
      unPinPage p1 true
      unPinPage p2 true) := by
  apply minRun_bind_peek
  intro pgA hkA
  apply minRun_bind (minRun_reparentAll _ _ _)
  intro y1
  apply minRun_bind_peek
  intro pgB hkB
  apply minRun_bind (minRun_reparentAll _ _ _)
  intro y2
  apply minRun_bind_peek
  intro pgC hkC
  apply minRun_bind (minRun_write _ _ (nodeMin_reparent_nonleaf _ _ hkC))
  intro y3
  apply minRun_bind_peek
  intro pgD hkD
  apply minRun_bind (minRun_write _ _ (nodeMin_reparent_nonleaf _ _ hkD))
  intro y4
  dsimp only
  apply minRun_ite
  · intro hr
    apply minRun_bind_peek
    intro pgE hkE
    apply minRun_bind (minRun_write _ _ (nodeMin_reparent_nonleaf _ _ hkE))
    intro y5
    apply minRun_bind minRun_getS
    intro st
    apply minRun_bind (minRun_read _)
    intro pgM
    apply minRun_bind (minRun_modifyPg (fun s' => { s' with rootPageNum := npid }) (fun t => rfl))
    intro y6
    apply minRun_bind (minRun_write st.headerPageNum (.meta { asMeta pgM with rootPageNo := npid }) rfl)
    intro y7
    apply minRun_bind (minRun_unpin _ _)
    intro y8
    exact minRun_bind (minRun_unpin _ _) (fun _ => minRun_bind (minRun_unpin _ _)
      (fun _ => minRun_bind (minRun_unpin _ _) (fun _ => minRun_unpin _ _)))
  · intro hr
    apply minRun_bind (ih _ _)
    intro y5
    exact minRun_bind (minRun_unpin _ _) (fun _ => minRun_bind (minRun_unpin _ _)
      (fun _ => minRun_bind (minRun_unpin _ _) (fun _ => minRun_unpin _ _)))

theorem minRun_combine (NI : Nat) (h3 : 3 ≤ NI) : ∀ (fuel : Nat) (p1 p2 : PageId),
    MinRun (combineNonleaf NI fuel p1 p2) := by
  intro fuel
  induction fuel with
  | zero =>
    intro p1 p2 s hs
    exact trivial
  | succ n ih =>
    intro p1 p2
    rw [combineNonleaf]
    apply minRun_bind_read
    intro pg1 hk1
    apply minRun_bind_read
    intro pg2 hk2
    dsimp only
    apply minRun_ite
    · intro hfit
      apply minRun_bind (minRun_write _ _ (nodeMin_nonleafInsert _ _ _ _))
      intro y1
      apply minRun_bind_read
      intro pgc1 hkc1
      apply minRun_bind_read
      intro pgc2 hkc2
      dsimp only
      apply minRun_ite
      · intro hlv
        exact minRun_bind (minRun_write _ _ (nodeMin_reparent_leaf _ _ hkc1))
          (fun _ => minRun_bind (minRun_write _ _ (nodeMin_reparent_leaf _ _ hkc2))
            (fun _ => minRun_bind (minRun_unpin _ _) (fun _ => minRun_bind (minRun_unpin _ _)
              (fun _ => minRun_bind (minRun_unpin _ _) (fun _ => minRun_unpin _ _)))))
      · intro hlv
        exact minRun_bind (minRun_write _ _ (nodeMin_reparent_nonleaf _ _ hkc1))
          (fun _ => minRun_bind (minRun_write _ _ (nodeMin_reparent_nonleaf _ _ hkc2))
            (fun _ => minRun_bind (minRun_unpin _ _) (fun _ => minRun_bind (minRun_unpin _ _)
              (fun _ => minRun_bind (minRun_unpin _ _) (fun _ => minRun_unpin _ _)))))
    · intro hfit
      have hlen : NI ≤ (asNonLeaf pg2).keyArray.length := Nat.le_of_not_lt hfit
      apply minRun_bind minRun_alloc
      intro newNodeID
      apply minRun_bind minRun_alloc
      intro newParentID
      apply minRun_bind (minRun_write _ _ (by
        simp [nodeMinB, NonLeafNodeInt.key_count]))
      intro y1
      dsimp only
      apply minRun_ite
      · intro hkv
        apply minRun_bind (minRun_write _ _ (nodeMin_nonleafInsert _ _ _ _))
        intro y2
        apply minRun_bind (minRun_write _ _ (by
          simp only [nodeMinB, NonLeafNodeInt.key_count, List.length_drop,
            Bool.or_eq_true, decide_eq_true_eq]
          left
          omega))
        intro y3
        exact minRun_combineTail NI n newNodeID newParentID p1 p2 ih
      · intro hkv
        apply minRun_bind (minRun_write _ _ (by
          simp only [nodeMinB, NonLeafNodeInt.key_count, List.length_take,
            Bool.or_eq_true, decide_eq_true_eq]
          left
          omega))
        intro y2
        apply minRun_bind (minRun_write _ _ (nodeMin_nonleafInsert _ _ _ _))
        intro y3
        exact minRun_combineTail NI n newNodeID newParentID p1 p2 ih

theorem leafSplitInsert_min (NL NI : Nat) (h2 : 2 ≤ NL) (h3 : 3 ≤ NI) (fuel : Nat)
    (k : Int) (pid : PageId) (rid : RecordId) (s : BTState)
    (hs : pagesMinB s.pages = true)
    (hfull : NL ≤ (asLeaf (heapGet s.pages pid)).key_count) :
    RunMin (leafSplitInsert NL NI fuel k pid rid) s := by
  have hlen : NL ≤ (asLeaf (heapGet s.pages pid)).keyArray.length := hfull
  rw [leafSplitInsert]
  rw [runMin_bind (run_readPage pid s)]
  dsimp only
  rw [runMin_bind (run_allocPage _)]
  dsimp only
  rw [runMin_bind (run_allocPage _)]
  dsimp only
  rw [runMin_bind (run_writePage _ _ _)]
  dsimp only
  by_cases hkv : k < (List.drop (NL / 2) (asLeaf (heapGet s.pages pid)).keyArray).getD 0 0
  · rw [if_pos hkv]
    rw [runMin_bind (run_writePage _ _ _)]
    dsimp only
    rw [runMin_bind (run_writePage _ _ _)]
    dsimp only
    refine runMin_bind_total (minRun_combine NI h3 fuel _ _ _ ?_) (fun a t ht =>
      minRun_bind (minRun_unpin _ _) (fun _ => minRun_bind (minRun_unpin _ _)
        (fun _ => minRun_unpin _ _)) t ht)
    exact pagesMinB_heapSet (pagesMinB_heapSet (pagesMinB_heapSet hs
        (by simp [nodeMinB, NonLeafNodeInt.key_count]))
      (nodeMin_leafInsert _ _ _))
      (by simp only [nodeMinB, LeafNodeInt.key_count, List.length_drop,
            Bool.or_eq_true, decide_eq_true_eq]
          left
          omega)
  · rw [if_neg hkv]
    rw [runMin_bind (run_writePage _ _ _)]
    dsimp only
    rw [runMin_bind (run_writePage _ _ _)]
    dsimp only
    refine runMin_bind_total (minRun_combine NI h3 fuel _ _ _ ?_) (fun a t ht =>
      minRun_bind (minRun_unpin _ _) (fun _ => minRun_bind (minRun_unpin _ _)
        (fun _ => minRun_unpin _ _)) t ht)
    exact pagesMinB_heapSet (pagesMinB_heapSet (pagesMinB_heapSet hs
        (by simp [nodeMinB, NonLeafNodeInt.key_count]))
      (by simp only [nodeMinB, LeafNodeInt.key_count, List.length_take,
            Bool.or_eq_true, decide_eq_true_eq]
          left
          omega))
      (nodeMin_leafInsert _ _ _)

theorem insert_min (NL NI : Nat) (h2 : 2 ≤ NL) (h3 : 3 ≤ NI) :
    ∀ (fuel : Nat) (k : Int) (pid : PageId) (rid : RecordId),
    MinRun (insert NL NI fuel k pid rid) := by
  intro fuel
  induction fuel with
  | zero =>
    intro k pid rid s hs
    exact trivial
  | succ n ih =>
    intro k pid rid
    rw [insert]
    apply minRun_bind_read'
    intro s1 hs1
    dsimp only
    by_cases hl0 : isLeafD (heapGet s1.pages pid) = 0
    · rw [if_pos hl0]
      by_cases hc0 : (asNonLeaf (heapGet s1.pages pid)).key_count = 0
      · rw [if_pos hc0]
        rw [runMin_bind (run_allocPage _)]
        dsimp only
        rw [runMin_bind (run_allocPage _)]
        dsimp only
        rw [runMin_bind (run_writePage _ _ _)]
        dsimp only
        rw [runMin_bind (run_writePage _ _ _)]
        dsimp only
        rw [runMin_bind (run_writePage _ _ _)]
        dsimp only
        rw [runMin_bind (run_unPinPage _ _ _)]
        rw [runMin_bind (run_unPinPage _ _ _)]
        exact runMin_unpin _ _ (pagesMinB_heapSet (pagesMinB_heapSet (pagesMinB_heapSet hs1
            (by simp [nodeMinB, LeafNodeInt.key_count]))
          (by simp [nodeMinB, LeafNodeInt.key_count]))
          (by simp [nodeMinB, NonLeafNodeInt.key_count]))
      · rw [if_neg hc0]
        exact minRun_bind (ih _ _ _) (fun _ => minRun_unpin _ _) _ hs1
    · rw [if_neg hl0]
      by_cases hl1 : isLeafD (heapGet s1.pages pid) = 1
      · rw [if_pos hl1]
        by_cases hfits : (asLeaf (heapGet s1.pages pid)).key_count < NL
        · rw [if_pos hfits]
          exact minRun_bind (minRun_write _ _ (nodeMin_leafInsert _ _ _))
            (fun _ => minRun_unpin _ _) _ hs1
        · rw [if_neg hfits]
          refine runMin_bind_total (leafSplitInsert_min NL NI h2 h3 n k pid rid _ hs1
            (Nat.le_of_not_lt hfits)) (fun a t ht => minRun_unpin _ _ t ht)
      · rw [if_neg hl1]
        exact minRun_bind (minRun_pure _) (fun _ => minRun_unpin _ _) _ hs1

theorem insertEntry_min (NL NI : Nat) (h2 : 2 ≤ NL) (h3 : 3 ≤ NI) (fuel : Nat)
    (k : Int) (rid : RecordId) : MinRun (insertEntry NL NI fuel k rid) := by
  rw [insertEntry]
  exact minRun_bind minRun_getS (fun s => insert_min NL NI h2 h3 fuel k s.rootPageNum rid)

/-- `m` never changes the pages of the index file. -/
def PgEqRun {α : Type} (m : M α) : Prop :=
  ∀ s, match m s with
    | .ok _ s' => s'.pages = s.pages
    | .err _ s' => s'.pages = s.pages
    | .fuelOut => True

theorem pgEq_bind {α β : Type} {x : M α} {f : α → M β}
    (hx : PgEqRun x) (hf : ∀ a, PgEqRun (f a)) : PgEqRun (x >>= f) := by
  intro s
  rw [run_bind]
  have h1 := hx s
  cases hxs : x s with
  | fuelOut => exact trivial
  | err e s1 =>
    rw [hxs] at h1
    exact h1
  | ok a s1 =>
    rw [hxs] at h1
    have h2 := hf a s1
    dsimp only
    cases hfs : f a s1 with
    | fuelOut => exact trivial
    | ok c s2 =>
      rw [hfs] at h2
      exact h2.trans h1
    | err e s2 =>
      rw [hfs] at h2
      exact h2.trans h1

theorem pgEq_ite {α : Type} {c : Prop} [Decidable c] {x y : M α}
    (hx : PgEqRun x) (hy : PgEqRun y) : PgEqRun (if c then x else y) := by
  by_cases hc : c
  · rw [if_pos hc]
    exact hx
  · rw [if_neg hc]
    exact hy

theorem pgEq_read (p : PageId) : PgEqRun (readPage p) := fun _ => rfl

theorem pgEq_peek (p : PageId) : PgEqRun (peek p) := fun _ => rfl

theorem pgEq_getS : PgEqRun getS := fun _ => rfl

theorem pgEq_unpin (p : PageId) (b : Bool) : PgEqRun (unPinPage p b) := fun _ => rfl

theorem pgEq_pure {α : Type} (a : α) : PgEqRun (Pure.pure a : M α) := fun _ => rfl

theorem pgEq_throw {α : Type} (e : BTError) : PgEqRun (throwE e : M α) := fun _ => rfl

theorem pgEq_modify (f : BTState → BTState) (h : ∀ t, (f t).pages = t.pages) :
    PgEqRun (modifyS f) := fun s => h s

theorem pgEq_endScan : PgEqRun endScan := by
  rw [endScan]
  repeat' first
    | exact pgEq_getS
    | exact pgEq_throw _
    | exact pgEq_pure _
    | exact pgEq_unpin _ _
    | exact pgEq_modify _ (fun t => rfl)
    | apply pgEq_ite
    | apply pgEq_bind
    | dsimp only
    | intro a

theorem pgEq_moveToNextPage (node : LeafNodeInt) : PgEqRun (moveToNextPage node) := by
  rw [moveToNextPage]
  repeat' first
    | exact pgEq_getS
    | exact pgEq_read _
    | exact pgEq_unpin _ _
    | exact pgEq_modify _ (fun t => rfl)
    | apply pgEq_bind
    | dsimp only
    | intro a

theorem pgEq_setPageId : ∀ (fuel : Nat), PgEqRun (setPageIdForScan fuel) := by
  intro fuel
  induction fuel with
  | zero =>
    intro s
    exact trivial
  | succ n ih =>
    rw [setPageIdForScan]
    repeat' first
      | exact pgEq_getS
      | exact pgEq_read _
      | exact pgEq_unpin _ _
      | exact pgEq_pure _
      | exact pgEq_modify _ (fun t => rfl)
      | exact ih
      | apply pgEq_ite
      | apply pgEq_bind
      | dsimp only
      | intro a

theorem pgEq_setNextEntry : PgEqRun setNextEntry := by
  rw [setNextEntry]
  repeat' first
    | exact pgEq_getS
    | exact pgEq_peek _
    | exact pgEq_pure _
    | exact pgEq_moveToNextPage _
    | exact pgEq_modify _ (fun t => rfl)
    | apply pgEq_ite
    | apply pgEq_bind
    | dsimp only
    | intro a

theorem pgEq_setEntryIndex : PgEqRun setEntryIndexForScan := by
  rw [setEntryIndexForScan]
  apply pgEq_bind pgEq_getS
  intro s
  apply pgEq_bind (pgEq_peek _)
  intro pg
  dsimp only
  cases firstIdxP (lowPredB s.lowOp s.lowValInt) (asLeaf pg).keyArray
  · exact pgEq_moveToNextPage _
  · exact pgEq_modify _ (fun t => rfl)

theorem pgEq_startScanTail (fuel : Nat) : PgEqRun (startScanTail fuel) := by
  rw [startScanTail]
  repeat' first
    | exact pgEq_getS
    | exact pgEq_peek _
    | exact pgEq_pure _
    | exact pgEq_throw _
    | exact pgEq_setPageId _
    | exact pgEq_setEntryIndex
    | exact pgEq_endScan
    | apply pgEq_ite
    | apply pgEq_bind
    | dsimp only
    | intro a

theorem pgEq_startScan (lo : Int) (lop : Operator) (hi : Int) (hop : Operator) (fuel : Nat) :
    PgEqRun (startScan lo lop hi hop fuel) := by
  rw [startScan]
  repeat' first
    | exact pgEq_getS
    | exact pgEq_read _
    | exact pgEq_unpin _ _
    | exact pgEq_throw _
    | exact pgEq_pure _
    | exact pgEq_startScanTail _
    | exact pgEq_modify _ (fun t => rfl)
    | apply pgEq_ite
    | apply pgEq_bind
    | dsimp only
    | intro a

theorem pgEq_scanNext : PgEqRun scanNext := by
  rw [scanNext]
  repeat' first
    | exact pgEq_getS
    | exact pgEq_peek _
    | exact pgEq_throw _
    | exact pgEq_pure _
    | exact pgEq_setNextEntry
    | apply pgEq_ite
    | apply pgEq_bind
    | dsimp only
    | intro a

theorem pgEq_openIndex (rel : String) (off : Int) (ty : Nat) :
    PgEqRun (openIndex rel off ty) := by
  rw [openIndex]
  repeat' first
    | exact pgEq_getS
    | exact pgEq_read _
    | exact pgEq_unpin _ _
    | exact pgEq_throw _
    | exact pgEq_pure _
    | exact pgEq_modify _ (fun t => rfl)
    | apply pgEq_ite
    | apply pgEq_bind
    | dsimp only
    | intro a

theorem runMin_apply {m : M Unit} {s s' : BTState} (h : RunMin m s)
    (hrun : m s = .ok () s' ∨ ∃ e, m s = .err e s') : pagesMinB s'.pages = true := by
  unfold RunMin at h
  rcases hrun with hok | ⟨e, herr⟩
  · rw [hok] at h
    exact h
  · rw [herr] at h
    exact h

theorem pgEq_apply {m : M Unit} (h : PgEqRun m) {s s' : BTState}
    (hrun : m s = .ok () s' ∨ ∃ e, m s = .err e s')
    (hInv : pagesMinB s.pages = true) : pagesMinB s'.pages = true := by
  have hm := h s
  rcases hrun with hok | ⟨e, herr⟩
  · rw [hok] at hm
    rw [hm]
    exact hInv
  · rw [herr] at hm
    rw [hm]
    exact hInv

/-- C5 counterexample: the very first insert into a fresh tree is a
completed public operation after which the bootstrap right leaf (page 4) is
a non-root node with `key_count = 0` — "every non-root node has
key_count >= 1" fails immediately. -/
theorem claim_C5_counterexample :
    insertEntry 2 2 3 5 ⟨10, 1⟩ c9FreshState = .ok () c1A1 ∧
    heapGet c1A1.pages 4 = some (.node (.leaf ⟨[], [], 2, 0⟩)) ∧
    (⟨[], [], 2, 0⟩ : LeafNodeInt).key_count = 0 ∧
    c1A1.rootPageNum = 2 ∧ (4 : PageId) ≠ 2 :=
  ⟨c1_step1, rfl, rfl, rfl, by decide⟩

/-- C5 (amended): the invariant every public operation actually preserves
(given capacities `INTARRAYLEAFSIZE >= 2`, `INTARRAYNONLEAFSIZE >= 3`) is
weaker than claimed: every leaf holds a key or is a rightmost leaf
(`right_sibling = 0`, e.g. the empty bootstrap leaf), and every internal
node holds a key or still has `level = 0` (e.g. the fresh root); both on
normal returns and on throwing exits. -/
theorem claim_C5_amended (NL NI fuel : Nat) (op : PublicOp) (s s' : BTState)
    (h2 : 2 ≤ NL) (h3 : 3 ≤ NI)
    (hInv : pagesMinB s.pages = true)
    (hrun : applyOp NL NI fuel op s = .ok () s' ∨ ∃ e, applyOp NL NI fuel op s = .err e s') :
    pagesMinB s'.pages = true := by
  cases op with
  | insertE k r => exact runMin_apply (insertEntry_min NL NI h2 h3 fuel k r s hInv) hrun
  | startScanOp lo lop hi hop => exact pgEq_apply (pgEq_startScan lo lop hi hop fuel) hrun hInv
  | scanNextOp => exact pgEq_apply (pgEq_bind pgEq_scanNext (fun _ => pgEq_pure _)) hrun hInv
  | endScanOp => exact pgEq_apply pgEq_endScan hrun hInv
  | openOp rel off ty => exact pgEq_apply (pgEq_openIndex rel off ty) hrun hInv

theorem claim_C5_witness : pagesMinB c1A1.pages = true :=
  claim_C5_amended 2 3 3 (.insertE 5 ⟨10, 1⟩) c9FreshState c1A1 (by decide) (by decide)
    (by decide) (Or.inl (by decide))

theorem claim_C9_witness :
    ∃ s', insertEntry 2 2 5 5 ⟨10, 1⟩ c9FreshState = .ok () s' ∧
      s'.nextPageId = 5 ∧
      heapGet s'.pages 3 = some (.node (.leaf ⟨[5], [⟨10, 1⟩], 2, 4⟩)) ∧
      heapGet s'.pages 4 = some (.node (.leaf ⟨[], [], 2, 0⟩)) ∧
      heapGet s'.pages 2 = some (.node (.nonleaf ⟨1, [wrap32 6], [3, 4], 0⟩)) ∧
      (⟨1, [wrap32 6], [3, 4], 0⟩ : NonLeafNodeInt).key_count = 1 ∧
      (∀ p, p ≠ 3 → p ≠ 4 → p ≠ 2 → heapGet s'.pages p = heapGet c9FreshState.pages p) ∧
      s'.pins = c9FreshState.pins ∧
      ((5 : Int) ≠ 2147483647 → wrap32 (5 + 1) > 5) ∧
      ((5 : Int) = 2147483647 → wrap32 (5 + 1) = -2147483648) :=
  claim_C9_amended 2 2 4 c9FreshState 5 ⟨10, 1⟩ ⟨0, [], [], 0⟩ (by decide) rfl
    (by decide) ⟨by norm_num, by norm_num⟩

end BT
